import Mathlib

/-! # Backlight passthrough filesystems

A shallow embedding of `src/backlight/aliasbacklightfs.c` and
`src/backlight/smoothbacklightfs.c`.

* C `int` values are mathematical integers; every place where the C code
  converts or computes in a fixed width carries an explicit `toInt32` /
  `toInt64`.
* C strings and byte buffers are `List Char`; `cstr` cuts a buffer at its
  first NUL byte.
* The operating system is an explicit input: the content of a pseudo-file is
  an `Option (List Char)` (`none`: it cannot be opened or read), the outcome
  of a forwarded system call is a `Sys` record, the success of a device write
  or of a channel send is a `Bool`.
* An integer division whose divisor is zero has no result: the function that
  performs it returns `none`.
-/

namespace Backlight

/-! ## C integers and constants -/

def INT_MAX : Int := 2147483647

def INT_MIN : Int := -2147483648

/-- Conversion to a 32-bit two's complement `int`. -/
def toInt32 (x : Int) : Int := (x + 2147483648) % 4294967296 - 2147483648

/-- Conversion to a 64-bit two's complement `long long`. -/
def toInt64 (x : Int) : Int :=
  (x + 9223372036854775808) % 18446744073709551616 - 9223372036854775808

/-- The value is representable as a C `int`. -/
def InInt (x : Int) : Prop := INT_MIN ≤ x ∧ x ≤ INT_MAX

instance (x : Int) : Decidable (InInt x) := by unfold InInt; exact inferInstance

/-- C integer division: truncation toward zero, undefined for a zero divisor. -/
def c_div (a b : Int) : Option Int := if b = 0 then none else some (Int.tdiv a b)

/-- C `abs` on `int`. -/
def c_abs (x : Int) : Int := if x < 0 then toInt32 (-x) else x

/-- Linux `errno` values used by the two programs. -/
def EBADF : Int := 9

def EACCES : Int := 13

def EINVAL : Int := 22

/-- Linux access modes of `open(2)`, from `<fcntl.h>`. -/
def O_RDONLY : Nat := 0

def O_WRONLY : Nat := 1

def O_RDWR : Nat := 2

def O_ACCMODE : Nat := 3

/-- Timing constants, `smoothbacklightfs.c:19-21`. -/
def SPEED : Int := 1000

def MIN_INTERVAL : Int := 10

def MIN_PERIOD : Int := 1000

/-! ## The C library: strings, `sscanf("%d")`, `printf("%d")` -/

def NUL : Char := Char.ofNat 0

def NL : Char := Char.ofNat 10

def nonNul (c : Char) : Bool := c.toNat != 0

/-- The C string held in a buffer: the bytes before the first NUL. -/
def cstr (buf : List Char) : List Char := buf.takeWhile nonNul

def isspace (c : Char) : Bool := c.toNat == 32 || (9 ≤ c.toNat && c.toNat ≤ 13)

def isdigit (c : Char) : Bool := 48 ≤ c.toNat && c.toNat ≤ 57

def skipSpace : List Char → List Char
  | [] => []
  | c :: cs => if isspace c then skipSpace cs else c :: cs

/-- The value of the longest run of decimal digits at the head of the input. -/
def scanDigits : Nat → List Char → Nat
  | acc, [] => acc
  | acc, c :: cs => if isdigit c then scanDigits (acc * 10 + (c.toNat - 48)) cs else acc

/-- The conversion `sscanf(s, "%d", &n)`: white space is skipped, an optional
sign is read, then at least one decimal digit. `some v`: the call returns 1 and
stores `v`; `none`: it returns 0 or `EOF` and stores nothing. The stored value
is the scanned number converted to `int`. -/
def sscanf_d (s : List Char) : Option Int :=
  match skipSpace s with
  | [] => none
  | c :: cs =>
    if c = '-' then
      match cs with
      | [] => none
      | d :: _ => if isdigit d then some (toInt32 (-(scanDigits 0 cs : Int))) else none
    else if c = '+' then
      match cs with
      | [] => none
      | d :: _ => if isdigit d then some (toInt32 (scanDigits 0 cs : Int)) else none
    else if isdigit c then some (toInt32 (scanDigits 0 (c :: cs) : Int))
    else none

def digitChar (d : Nat) : Char := Char.ofNat (48 + d)

/-- The decimal digits of a natural number, most significant first. The first
argument bounds the number of digits. -/
def natDigitsAux : Nat → Nat → List Char
  | 0, n => [digitChar (n % 10)]
  | fuel + 1, n =>
    if n < 10 then [digitChar n] else natDigitsAux fuel (n / 10) ++ [digitChar (n % 10)]

def natDigits (n : Nat) : List Char := natDigitsAux n n

/-- The output of `printf("%d", n)`. -/
def fmt_d (n : Int) : List Char :=
  if n < 0 then '-' :: natDigits n.natAbs else natDigits n.natAbs

/-- The output of `printf("%d\n", n)`. -/
def fmt_d_nl (n : Int) : List Char := fmt_d n ++ [NL]

/-- The C string left in `buf` by `snprintf(buf, sz, "%d\n", v)`: at most
`sz - 1` bytes of the line; with `sz = 0` the buffer is not touched. -/
def snprintf_d_nl (buf : List Char) (sz : Nat) (v : Int) : List Char :=
  if sz = 0 then cstr buf else (fmt_d_nl v).take (sz - 1)

/-! ## Device accessor (`readfile`, `readnum`; identical in both programs) -/

/-- Function `readfile(dfd, path, buf, bufsz)`: `none` is the return value -1 (the
file cannot be opened, or the read fails), `some bytes` the bytes read. -/
def readfile (file : Option (List Char)) (bufsz : Nat) : Option (List Char) :=
  file.map (fun content => content.take bufsz)

/-- Function `readnum(dfd, path)`. `junk` is the indeterminate value of the local `n`,
which `sscanf` leaves untouched when the content does not scan. -/
def readnum (file : Option (List Char)) (junk : Int) : Int :=
  match readfile file 19 with
  | none => -1
  | some buf =>
    let n := (sscanf_d (cstr buf)).getD junk
    if n < 0 then 0 else n

/-- The outcome of a system call forwarded to the real directory: its return
value, `errno`, and the bytes it delivered (for a read). -/
structure Sys where
  ret : Int
  errno : Int
  data : List Char
deriving DecidableEq

/-! ## Passthrough layer (identical in both programs) -/

/-- Function `pathfix`. -/
def pathfix (p : List Char) : List Char :=
  let p1 := match p with
    | c :: cs => if c = '/' then cs else c :: cs
    | [] => []
  if p1 = [] ∨ p1 = "..".toList then ".".toList else p1

/-- Function `fs_open`: the return value and the handle stored in `fi->fh`, if any. -/
def fs_open (path : List Char) (flags : Nat) (sys : Sys) : Int × Option Int :=
  let path := pathfix path
  if path = "brightness".toList then (0, none)
  else if path = "actual_brightness".toList then
    if O_WRONLY ≠ 0 ∧ (flags &&& O_WRONLY) ≠ 0 then (-EACCES, none) else (0, none)
  else if sys.ret < 0 then (-sys.errno, none)
  else (0, some sys.ret)

/-- Function `fs_truncate`. -/
def fs_truncate (path : List Char) (sys : Sys) : Int :=
  let path := pathfix path
  if path = "brightness".toList ∨ path = "actual_brightness".toList then 0
  else if sys.ret ≠ 0 then -sys.errno
  else 0

/-- Function `fs_release`. -/
def fs_release (path : List Char) (sys : Sys) : Int :=
  let path := pathfix path
  if path = "brightness".toList ∨ path = "actual_brightness".toList then 0
  else if sys.ret ≠ 0 then -sys.errno
  else 0

/-- Function `fs_read`: the return value and the C string left in the caller's buffer.
`dev_brightness` is the current content of the real device's `brightness`
file. The offset is only passed on with a forwarded read. -/
def fs_read (target_brightness : Int) (dev_brightness : Option (List Char)) (junk : Int)
    (path : List Char) (buf : List Char) (sz : Nat) (_off : Int) (sys : Sys) :
    Int × List Char :=
  let path := pathfix path
  if path = "brightness".toList then
    let out := snprintf_d_nl buf sz target_brightness
    (toInt32 out.length, out)
  else if path = "actual_brightness".toList then
    let rb := readnum dev_brightness junk
    let out := snprintf_d_nl buf sz rb
    (toInt32 out.length, out)
  else if sys.ret < 0 then (-sys.errno, buf)
  else (toInt32 sys.ret, sys.data)

/-! ## Alias backend and its `fs_write` (`aliasbacklightfs.c`) -/

namespace Alias

/-- The second device directory, as `request_bri_update` meets it through `tfd`:
the content of its `max_brightness` file, whether its `brightness` file can be
opened for writing, whether a `write` on it succeeds, and the buffers written
to it so far, oldest first. -/
structure Target where
  max_brightness : Option (List Char)
  can_open : Bool
  write_ok : Bool
  writes : List (List Char)
deriving DecidableEq

/-- The scaled value `tbri = (long long) tmax * bri / maxbri` of
`request_bri_update`, converted to `int`; `none` when `maxbri` is zero. -/
def scale (tmax bri maxbri : Int) : Option Int :=
  (c_div (toInt64 (tmax * bri)) maxbri).map toInt32

/-- Function `request_bri_update(tfd, bri, maxbri)`: the return value and the second
device afterwards; `none` when the division has a zero divisor. The result of
`write` is not looked at. -/
def request_bri_update (t : Target) (junk : Int) (bri maxbri : Int) : Option (Int × Target) :=
  let tmax := readnum t.max_brightness junk
  if tmax ≤ 0 then some (1, t)
  else
    match scale tmax bri maxbri with
    | none => none
    | some tbri =>
      let buf := fmt_d_nl tbri
      if t.can_open = false then some (1, t)
      else if t.write_ok then some (0, { t with writes := t.writes ++ [buf] })
      else some (0, t)

/-- The mount context of the alias program, together with the second device
and a flag recording that `kill(getpid(), SIGINT)` was issued. -/
structure State where
  target_brightness : Int
  max_brightness : Int
  tdev : Target
  killed : Bool
deriving DecidableEq

/-- Function `fs_write`: the return value and the state afterwards; `none` when
`request_bri_update` divides by zero. `junk` is passed to `readnum`. -/
def fs_write (s : State) (junk : Int) (path payload : List Char) (_off : Int) (sys : Sys) :
    Option (Int × State) :=
  let path := pathfix path
  if path = "brightness".toList then
    match sscanf_d (cstr payload) with
    | none => some (-EINVAL, s)
    | some b0 =>
      let b1 := if b0 < 0 then 0 else b0
      let b := if b1 > s.max_brightness then s.max_brightness else b1
      match request_bri_update s.tdev junk b s.max_brightness with
      | none => none
      | some (r, t) =>
        some (toInt32 payload.length,
          { s with target_brightness := b, tdev := t, killed := s.killed || (r != 0) })
  else if path = "actual_brightness".toList then some (-EBADF, s)
  else if sys.ret < 0 then some (-sys.errno, s)
  else some (toInt32 sys.ret, s)

/-- Startup of `main` up to the mount: both files of the real directory are
read with `readnum`; `none` is the exit with status 1. `tdir_ok` tells whether
the second directory can be opened. -/
def main_init (brightness max_brightness : Option (List Char)) (junk_b junk_m : Int)
    (tdir_ok : Bool) (t : Target) : Option State :=
  let tb := readnum brightness junk_b
  let mb := readnum max_brightness junk_m
  if tb < 0 ∨ mb < 0 then none
  else if tdir_ok = false then none
  else some { target_brightness := tb, max_brightness := mb, tdev := t, killed := false }

end Alias

/-! ## Smoothing front end and worker (`smoothbacklightfs.c`) -/

namespace Smooth

/-- The mount context of the smoothing program, together with the messages
sent on the channel so far (oldest first) and a flag recording that
`kill(getpid(), SIGINT)` was issued. -/
structure State where
  target_brightness : Int
  max_brightness : Int
  channel : List Int
  killed : Bool
deriving DecidableEq

/-- Function `request_bri_update(sock, bri)`: the return value and the channel
afterwards; `send_ok` tells whether `send` delivers the message. -/
def request_bri_update (channel : List Int) (bri : Int) (send_ok : Bool) : Int × List Int :=
  if send_ok then (0, channel ++ [bri]) else (1, channel)

/-- Function `fs_write`: the return value and the state afterwards. -/
def fs_write (s : State) (path payload : List Char) (_off : Int) (send_ok : Bool)
    (sys : Sys) : Int × State :=
  let path := pathfix path
  if path = "brightness".toList then
    match sscanf_d (cstr payload) with
    | none => (-EINVAL, s)
    | some b0 =>
      let b1 := if b0 < 0 then 0 else b0
      let b := if b1 > s.max_brightness then s.max_brightness else b1
      let (r, ch) := request_bri_update s.channel b send_ok
      (toInt32 payload.length,
        { s with target_brightness := b, channel := ch, killed := s.killed || (r != 0) })
  else if path = "actual_brightness".toList then (-EBADF, s)
  else if sys.ret < 0 then (-sys.errno, s)
  else (toInt32 sys.ret, s)

/-- Startup of `main` up to the mount: `none` is the exit with status 1.
`child_ok` tells whether `child_setup` returns a channel. -/
def main_init (brightness max_brightness : Option (List Char)) (junk_b junk_m : Int)
    (child_ok : Bool) : Option State :=
  let tb := readnum brightness junk_b
  let mb := readnum max_brightness junk_m
  if tb < 0 ∨ mb < 0 then none
  else if child_ok = false then none
  else some { target_brightness := tb, max_brightness := mb, channel := [], killed := false }

/-- A request served by the mounted file system, with the inputs the
operating system contributes to it. -/
inductive FsOp where
  | write (path payload : List Char) (off : Int) (send_ok : Bool) (sys : Sys)
  | read (path buf : List Char) (sz : Nat) (off : Int) (dev_brightness : Option (List Char))
      (junk : Int) (sys : Sys)
  | openFile (path : List Char) (flags : Nat) (sys : Sys)
  | truncate (path : List Char) (sys : Sys)
  | release (path : List Char) (sys : Sys)

/-- The mount context after serving one request: only `fs_write` assigns to
the two globals. -/
def serve (s : State) : FsOp → State
  | .write path payload off send_ok sys => (fs_write s path payload off send_ok sys).2
  | .read _ _ _ _ _ _ _ => s
  | .openFile _ _ _ => s
  | .truncate _ _ => s
  | .release _ _ => s

/-- Function `update_brightness(fd, bri)`: the value whose decimal line is written. -/
def update_value (bri : Int) : Int := if bri < 0 then 0 else bri

/-- Function `update_brightness(fd, bri)`: the return value and the buffer handed to
`pwrite`; `wok` tells whether `pwrite` writes it. -/
def update_brightness (bri : Int) (wok : Bool) : Int × List Char :=
  let buf := fmt_d_nl (update_value bri)
  if wok then (0, buf) else (1, buf)

/-- Function `makestep(maxbri, bri, realbri, &step, &intval)`: the pair `(step, intval)`.
`child` calls it with `maxbri > 0` only. -/
def makestep (maxbri bri realbri : Int) : Int × Int :=
  let total := toInt32 (bri - realbri)
  if total = 0 then (0, -1)
  else
    let atotal := c_abs total
    let period0 := Int.tdiv (toInt32 (toInt32 (atotal * SPEED) + Int.tdiv maxbri 2)) maxbri
    let period := if period0 < MIN_PERIOD then MIN_PERIOD else period0
    let max_step_count := Int.tdiv period MIN_INTERVAL
    let step0 := Int.tdiv total max_step_count
    let step := if step0 = 0 then (if total < 0 then -1 else 1) else step0
    (step, MIN_INTERVAL)

/-- The locals of `child` that live across iterations of its loop; `running`
is false once the loop has been left. -/
structure Worker where
  maxbri : Int
  bri : Int
  realbri : Int
  step : Int
  intval : Int
  retry : Int
  running : Bool
deriving DecidableEq

/-- What ends one `poll` in the loop of `child`. -/
inductive Wake where
  /-- Case `poll` returns 0: the tick. -/
  | timeout
  /-- Case `poll` returns 1 and `recv` delivers a whole `int`. -/
  | message (newbri : Int)
  /-- Case `poll` returns 1 and `recv` delivers a short datagram or fails with `EAGAIN`. -/
  | nothing
  /-- Case `poll` returns 1 and `recv` returns 0 or fails otherwise. -/
  | closed
  /-- Case `poll` fails; `eagain` tells whether `errno` is `EAGAIN`. -/
  | pollfail (eagain : Bool)
deriving DecidableEq

/-- The tail of one loop iteration: `makestep`, then the step and the device
write when `realbri != bri`. Returns the worker and the value written. -/
def advance (w : Worker) (wok : Bool) : Worker × Option Int :=
  let (step, intval) := makestep w.maxbri w.bri w.realbri
  let w1 := { w with step := step, intval := intval }
  if w1.realbri ≠ w1.bri then
    let real := toInt32 (w1.realbri + step)
    if (update_brightness real wok).1 ≠ 0 then
      ({ w1 with realbri := real, running := false }, none)
    else ({ w1 with realbri := real }, some (update_value real))
  else (w1, none)

/-- One iteration of the `for (;;)` loop of `child`: the worker afterwards and
the value written to the device, if any. `wok` tells whether the device write
of this iteration succeeds. -/
def child_iter (w : Worker) (ev : Wake) (wok : Bool) : Worker × Option Int :=
  if w.running = false then (w, none)
  else
    match ev with
    | .pollfail eagain =>
      if eagain ∧ w.retry > 0 then ({ w with retry := w.retry - 1 }, none)
      else ({ w with running := false }, none)
    | .closed => ({ w with running := false }, none)
    | .nothing => advance w wok
    | .timeout => advance w wok
    | .message newbri =>
      let n1 := if newbri < 0 then 0 else newbri
      let n2 := if n1 > w.maxbri then w.maxbri else n1
      advance { w with bri := n2 } wok

/-- The loop of `child` over a sequence of wake-ups: the worker afterwards and
the values written to the device, oldest first. -/
def run : Worker → List (Wake × Bool) → Worker × List Int
  | w, [] => (w, [])
  | w, (ev, wok) :: rest =>
    let (w1, o) := child_iter w ev wok
    let (w2, l) := run w1 rest
    (w2, o.toList ++ l)

/-- The loop of `child` left alone: while the wait has a timeout
(`intval >= 0`) it ends in a tick; with `intval = -1` the worker blocks. Every
device write succeeds. -/
def tick_until_idle : Nat → Worker → Worker × List Int
  | 0, w => (w, [])
  | fuel + 1, w =>
    if w.intval < 0 ∨ w.running = false then (w, [])
    else
      let (w1, o) := child_iter w Wake.timeout true
      let (w2, l) := tick_until_idle fuel w1
      (w2, o.toList ++ l)

/-- Startup of `child` after the handshake: `none` when the worker exits
because the device maximum is not positive. -/
def child_init (brightness max_brightness : Option (List Char)) (junk_b junk_m : Int) :
    Option Worker :=
  let maxbri := readnum max_brightness junk_m
  if maxbri ≤ 0 then none
  else
    let bri0 := readnum brightness junk_b
    let bri := if bri0 < 0 then 10000 else bri0
    let (step, intval) := makestep maxbri bri bri
    some { maxbri := maxbri, bri := bri, realbri := bri, step := step, intval := intval,
           retry := 10000, running := true }

end Smooth

/-! ## Specification vocabulary -/

/-- The clamp of the specification: `b` itself inside `[lo, hi]`, `hi` above,
`lo` below. -/
def clamp (b lo hi : Int) : Int := if b < lo then lo else if b > hi then hi else b

/-- The integer `v` is a nearest integer to the rational `num / den`
(`den > 0`): it differs from it by at most one half. -/
def IsNearest (v num den : Int) : Prop := 2 * |v * den - num| ≤ den

instance (v num den : Int) : Decidable (IsNearest v num den) := by
  unfold IsNearest; exact inferInstance

/-- The worker is in the Idle state of the specification. -/
def Smooth.Idle (w : Smooth.Worker) : Prop :=
  w.realbri = w.bri ∧ w.step = 0 ∧ w.intval = -1

/-- The value `x` lies between `a` and `b`, in either order. -/
def Between (a x b : Int) : Prop := (a ≤ x ∧ x ≤ b) ∨ (b ≤ x ∧ x ≤ a)

/-- The value of the device after the writes of a run, given its value
before: the last value written, if any. -/
def device_after (before : Int) (writes : List Int) : Int := writes.getLastD before

/-- The wake-up delivers a whole target message. -/
def Smooth.Wake.isMessage : Smooth.Wake → Bool
  | .message _ => true
  | _ => false

/-- The worker receives the target `t` once, then is left alone: the final
worker and all values written. -/
def Smooth.ramp_once (w : Smooth.Worker) (t : Int) (fuel : Nat) : Smooth.Worker × List Int :=
  let a := Smooth.run w [(Smooth.Wake.message t, true)]
  let b := Smooth.tick_until_idle fuel a.1
  (b.1, a.2 ++ b.2)

/-- The worker receives the target `t` twice in immediate succession, then is
left alone: the final worker and all values written. -/
def Smooth.ramp_twice (w : Smooth.Worker) (t : Int) (fuel : Nat) : Smooth.Worker × List Int :=
  let a := Smooth.run w [(Smooth.Wake.message t, true), (Smooth.Wake.message t, true)]
  let b := Smooth.tick_until_idle fuel a.1
  (b.1, a.2 ++ b.2)

/-- The Ramp State invariant of the specification: away from the target the
step points toward the target and has magnitude at least 1. -/
def Smooth.RampInv (w : Smooth.Worker) : Prop :=
  (w.realbri < w.bri → 1 ≤ w.step) ∧ (w.bri < w.realbri → w.step ≤ -1)

/-- The worker after `n` ticks in a row, each with a successful device
write. -/
def Smooth.ticks (n : Nat) (w : Smooth.Worker) : Smooth.Worker :=
  (Smooth.run w (List.replicate n (Smooth.Wake.timeout, true))).1

/-! ## Predicates used in the proofs -/

/-- A worker whose target and device value are non-negative `int`s. -/
def Smooth.Ranged (w : Smooth.Worker) : Prop :=
  0 ≤ w.bri ∧ w.bri ≤ INT_MAX ∧ 0 ≤ w.realbri ∧ w.realbri ≤ INT_MAX

/-- The wait of the worker is either indefinite, and then it sits at its
target with a zero step, or lasts `MIN_INTERVAL`. -/
def Smooth.Settled (w : Smooth.Worker) : Prop :=
  (w.intval = -1 ∧ w.step = 0 ∧ w.realbri = w.bri) ∨ w.intval = MIN_INTERVAL


/-! ## Lemmas on C integers and on the decimal conversions -/

theorem toInt32_of_InInt {x : Int} (h : InInt x) : toInt32 x = x := by
  unfold InInt INT_MIN INT_MAX at h
  unfold toInt32
  omega

theorem isdigit_digitChar {d : Nat} (h : d < 10) : isdigit (digitChar d) = true := by
  interval_cases d <;> decide

theorem digitChar_val {d : Nat} (h : d < 10) : (digitChar d).toNat - 48 = d := by
  interval_cases d <;> decide

theorem isspace_digitChar {d : Nat} (h : d < 10) : isspace (digitChar d) = false := by
  interval_cases d <;> decide

theorem digitChar_ne_minus {d : Nat} (h : d < 10) : digitChar d ≠ '-' := by
  interval_cases d <;> decide

theorem digitChar_ne_plus {d : Nat} (h : d < 10) : digitChar d ≠ '+' := by
  interval_cases d <;> decide

theorem nonNul_of_isdigit {c : Char} (h : isdigit c = true) : nonNul c = true := by
  unfold isdigit at h
  unfold nonNul
  simp only [Bool.and_eq_true, decide_eq_true_eq] at h
  simp only [bne_iff_ne, ne_eq]
  omega

theorem scanDigits_digitChar (acc d : Nat) (h : d < 10) (l : List Char) :
    scanDigits acc (digitChar d :: l) = scanDigits (acc * 10 + d) l := by
  simp only [scanDigits, isdigit_digitChar h, digitChar_val h, if_true]

/-- Scanning the digits printed for `n`, followed by anything, continues the
scan of what follows with `n` appended to the accumulator. -/
theorem scanDigits_natDigitsAux (fuel : Nat) :
    ∀ (n acc : Nat) (suf : List Char), n ≤ fuel →
      scanDigits acc (natDigitsAux fuel n ++ suf)
        = scanDigits (acc * 10 ^ (natDigitsAux fuel n).length + n) suf := by
  induction fuel with
  | zero =>
    intro n acc suf hn
    have h0 : n = 0 := by omega
    subst h0
    simp only [natDigitsAux, List.singleton_append, List.length_singleton, pow_one]
    exact scanDigits_digitChar acc 0 (by decide) suf
  | succ fuel ih =>
    intro n acc suf hn
    by_cases hlt : n < 10
    · simp only [natDigitsAux, hlt, if_true, List.singleton_append, List.length_singleton,
        pow_one]
      exact scanDigits_digitChar acc n hlt suf
    · have hdiv : n / 10 ≤ fuel := by omega
      have hmod : n % 10 < 10 := Nat.mod_lt _ (by decide)
      simp only [natDigitsAux, hlt, if_false, List.append_assoc, List.singleton_append,
        List.length_append, List.length_singleton]
      rw [ih (n / 10) acc (digitChar (n % 10) :: suf) hdiv, scanDigits_digitChar _ _ hmod]
      congr 1
      have := Nat.div_add_mod n 10
      rw [pow_succ]
      nlinarith [this]

theorem natDigitsAux_all_digits (fuel : Nat) :
    ∀ (n : Nat), ∀ c ∈ natDigitsAux fuel n, isdigit c = true := by
  induction fuel with
  | zero =>
    intro n c hc
    simp only [natDigitsAux, List.mem_singleton] at hc
    subst hc
    exact isdigit_digitChar (Nat.mod_lt _ (by decide))
  | succ fuel ih =>
    intro n c hc
    by_cases hlt : n < 10
    · simp only [natDigitsAux, hlt, if_true, List.mem_singleton] at hc
      subst hc
      exact isdigit_digitChar hlt
    · simp only [natDigitsAux, hlt, if_false, List.mem_append, List.mem_singleton] at hc
      rcases hc with hc | hc
      · exact ih _ c hc
      · subst hc
        exact isdigit_digitChar (Nat.mod_lt _ (by decide))

theorem natDigitsAux_head (fuel : Nat) :
    ∀ (n : Nat), ∃ d rest, d < 10 ∧ natDigitsAux fuel n = digitChar d :: rest := by
  induction fuel with
  | zero =>
    intro n
    exact ⟨n % 10, [], Nat.mod_lt _ (by decide), rfl⟩
  | succ fuel ih =>
    intro n
    by_cases hlt : n < 10
    · exact ⟨n, [], hlt, by simp only [natDigitsAux, hlt, if_true]⟩
    · obtain ⟨d, rest, hd, hr⟩ := ih (n / 10)
      exact ⟨d, rest ++ [digitChar (n % 10)], hd, by
        simp only [natDigitsAux, hlt, if_false, hr, List.cons_append]⟩

theorem scanDigits_of_head_not_digit (acc : Nat) (l : List Char)
    (h : ∀ c ∈ l.head?, isdigit c = false) : scanDigits acc l = acc := by
  cases l with
  | nil => rfl
  | cons c cs =>
    have hc : isdigit c = false := h c (by simp)
    simp [scanDigits, hc]

theorem cstr_head_not_digit (l : List Char) (h : ∀ c ∈ l.head?, isdigit c = false) :
    ∀ c ∈ (cstr l).head?, isdigit c = false := by
  cases l with
  | nil => intro c hc; simp [cstr] at hc
  | cons a as =>
    intro c hc
    have ha : isdigit a = false := h a (by simp)
    unfold cstr at hc
    by_cases hz : nonNul a = true
    · rw [List.takeWhile_cons_of_pos hz] at hc
      simp only [List.head?_cons, Option.mem_def, Option.some.injEq] at hc
      subst hc
      exact ha
    · rw [List.takeWhile_cons_of_neg hz] at hc
      simp at hc

theorem scanDigits_natDigits (n : Nat) (suf : List Char)
    (h : ∀ c ∈ suf.head?, isdigit c = false) :
    scanDigits 0 (natDigits n ++ suf) = n := by
  unfold natDigits
  rw [scanDigits_natDigitsAux n n 0 suf (le_refl n), scanDigits_of_head_not_digit _ _ h]
  simp

theorem cstr_append_digits (l suf : List Char) (h : ∀ c ∈ l, nonNul c = true) :
    cstr (l ++ suf) = l ++ cstr suf := by
  unfold cstr
  induction l with
  | nil => rfl
  | cons a as ih =>
    have ha := h a (by simp)
    rw [List.cons_append, List.takeWhile_cons_of_pos ha, ih (fun c hc => h c (by simp [hc]))]
    rfl

/-- Scanning what `printf("%d")` prints for an `int`, followed by anything
that does not start with a digit, succeeds and gives the number back. -/
theorem sscanf_d_fmt_d (b : Int) (hb : InInt b) (suf : List Char)
    (h : ∀ c ∈ suf.head?, isdigit c = false) :
    sscanf_d (cstr (fmt_d b ++ suf)) = some b := by
  have h2 := cstr_head_not_digit suf h
  obtain ⟨d, rest, hd, hr⟩ := natDigitsAux_head b.natAbs b.natAbs
  have hall : ∀ c ∈ natDigits b.natAbs, nonNul c = true := fun c hc =>
    nonNul_of_isdigit (natDigitsAux_all_digits _ _ c hc)
  have hscan := scanDigits_natDigits b.natAbs (cstr suf) h2
  by_cases hneg : b < 0
  · have hm : nonNul '-' = true := by decide
    have hcs : cstr (fmt_d b ++ suf) = '-' :: (natDigits b.natAbs ++ cstr suf) := by
      unfold fmt_d
      rw [if_pos hneg]
      have := cstr_append_digits ('-' :: natDigits b.natAbs) suf (by
        intro c hc
        rcases List.mem_cons.1 hc with hc | hc
        · subst hc; exact hm
        · exact hall c hc)
      simpa using this
    rw [hcs]
    have hsp : skipSpace ('-' :: (natDigits b.natAbs ++ cstr suf))
        = '-' :: (natDigits b.natAbs ++ cstr suf) := by
      simp only [skipSpace]
      rw [if_neg (by decide)]
    unfold sscanf_d
    rw [hsp]
    simp only [if_true]
    have hr2 : natDigits b.natAbs ++ cstr suf = digitChar d :: (rest ++ cstr suf) := by
      unfold natDigits; rw [hr]; rfl
    rw [hr2] at hscan ⊢
    simp only [isdigit_digitChar hd, if_true, hscan]
    have : (-((b.natAbs : Nat) : Int)) = b := by omega
    rw [this, toInt32_of_InInt hb]
  · have hcs : cstr (fmt_d b ++ suf) = natDigits b.natAbs ++ cstr suf := by
      unfold fmt_d
      rw [if_neg hneg]
      exact cstr_append_digits _ suf hall
    rw [hcs]
    have hr2 : natDigits b.natAbs ++ cstr suf = digitChar d :: (rest ++ cstr suf) := by
      unfold natDigits; rw [hr]; rfl
    rw [hr2] at hscan ⊢
    unfold sscanf_d
    simp only [skipSpace, isspace_digitChar hd, Bool.false_eq_true, if_false,
      if_neg (digitChar_ne_minus hd), if_neg (digitChar_ne_plus hd), isdigit_digitChar hd,
      if_true, hscan]
    have : ((b.natAbs : Nat) : Int) = b := by omega
    rw [this, toInt32_of_InInt hb]


/-! ## Write and read of `brightness` -/

theorem pathfix_brightness : pathfix "/brightness".toList = "brightness".toList := by decide

theorem pathfix_actual_brightness :
    pathfix "/actual_brightness".toList = "actual_brightness".toList := by decide

theorem actual_ne_brightness : "actual_brightness".toList ≠ "brightness".toList := by decide

/-- The two guarded assignments of `fs_write` compute the clamp into
`[0, max_brightness]` whenever `max_brightness` is not negative. -/
theorem clamp_code_eq (b m : Int) (hm : 0 ≤ m) :
    (if (if b < 0 then 0 else b) > m then m else (if b < 0 then 0 else b)) = clamp b 0 m := by
  unfold clamp
  split_ifs <;> omega

theorem fmt_d_nl_length_pos (v : Int) : 0 < (fmt_d_nl v).length := by
  simp [fmt_d_nl]

/-- Reading `brightness` with a buffer that holds the whole line returns the
decimal line of the cached target and its length. -/
theorem fs_read_brightness (target : Int) (dev : Option (List Char)) (junk : Int)
    (buf : List Char) (sz : Nat) (off : Int) (sys : Sys)
    (hsz : (fmt_d_nl target).length < sz) (hlen : ((fmt_d_nl target).length : Int) ≤ INT_MAX) :
    fs_read target dev junk "/brightness".toList buf sz off sys
      = (((fmt_d_nl target).length : Int), fmt_d_nl target) := by
  have hz : sz ≠ 0 := by omega
  have ht : (fmt_d_nl target).take (sz - 1) = fmt_d_nl target :=
    List.take_of_length_le (by omega)
  unfold fs_read
  simp only [pathfix_brightness, if_true, snprintf_d_nl, if_neg hz, ht]
  rw [toInt32_of_InInt]
  unfold InInt INT_MIN
  constructor
  · have := fmt_d_nl_length_pos target
    omega
  · exact hlen

/-- Smoothing variant: a write of the decimal text of `b` to `brightness`
returns the payload size, stores `clamp b 0 max_brightness` and hands exactly
that value to the channel. -/
theorem smooth_fs_write_brightness (s : Smooth.State) (b : Int) (suf : List Char) (off : Int)
    (send_ok : Bool) (sys : Sys) (hm : 0 ≤ s.max_brightness) (hb : InInt b)
    (hsuf : ∀ c ∈ suf.head?, isdigit c = false)
    (hlen : ((fmt_d b ++ suf).length : Int) ≤ INT_MAX) :
    Smooth.fs_write s "/brightness".toList (fmt_d b ++ suf) off send_ok sys
      = (((fmt_d b ++ suf).length : Int),
         { s with target_brightness := clamp b 0 s.max_brightness,
                  channel := if send_ok then s.channel ++ [clamp b 0 s.max_brightness]
                             else s.channel,
                  killed := s.killed || !send_ok }) := by
  have hlen2 : toInt32 ((fmt_d b ++ suf).length : Int) = ((fmt_d b ++ suf).length : Int) := by
    apply toInt32_of_InInt
    unfold InInt INT_MIN
    exact ⟨by omega, hlen⟩
  unfold Smooth.fs_write
  simp only [pathfix_brightness, if_true, sscanf_d_fmt_d b hb suf hsuf, clamp_code_eq b _ hm,
    Smooth.request_bri_update, hlen2]
  cases send_ok <;> simp

/-- Smoothing variant: writing the decimal text of `b` and then reading
`brightness` returns the decimal line of `clamp b 0 max_brightness`. -/
theorem smooth_write_then_read (s : Smooth.State) (b : Int) (suf : List Char) (off : Int)
    (send_ok : Bool) (sys : Sys) (dev : Option (List Char)) (junk : Int) (buf : List Char)
    (sz : Nat) (off2 : Int) (sys2 : Sys)
    (hm : 0 ≤ s.max_brightness) (hb : InInt b)
    (hsuf : ∀ c ∈ suf.head?, isdigit c = false)
    (hlen : ((fmt_d b ++ suf).length : Int) ≤ INT_MAX)
    (hsz : (fmt_d_nl (clamp b 0 s.max_brightness)).length < sz)
    (hlen2 : ((fmt_d_nl (clamp b 0 s.max_brightness)).length : Int) ≤ INT_MAX) :
    (fs_read (Smooth.fs_write s "/brightness".toList (fmt_d b ++ suf) off send_ok
        sys).2.target_brightness dev junk "/brightness".toList buf sz off2 sys2).2
      = fmt_d_nl (clamp b 0 s.max_brightness) := by
  rw [smooth_fs_write_brightness s b suf off send_ok sys hm hb hsuf hlen]
  simp only
  rw [fs_read_brightness _ dev junk buf sz off2 sys2 hsz hlen2]

/-- Alias variant: when `request_bri_update` returns, a write of the decimal
text of `b` to `brightness` returns the payload size and stores
`clamp b 0 max_brightness`. -/
theorem alias_fs_write_brightness (s : Alias.State) (junk b : Int) (suf : List Char)
    (off : Int) (sys : Sys) (r : Int) (t : Alias.Target)
    (hm : 0 ≤ s.max_brightness) (hb : InInt b)
    (hsuf : ∀ c ∈ suf.head?, isdigit c = false)
    (hlen : ((fmt_d b ++ suf).length : Int) ≤ INT_MAX)
    (hreq : Alias.request_bri_update s.tdev junk (clamp b 0 s.max_brightness) s.max_brightness
      = some (r, t)) :
    Alias.fs_write s junk "/brightness".toList (fmt_d b ++ suf) off sys
      = some (((fmt_d b ++ suf).length : Int),
         { s with target_brightness := clamp b 0 s.max_brightness, tdev := t,
                  killed := s.killed || (r != 0) }) := by
  have hlen2 : toInt32 ((fmt_d b ++ suf).length : Int) = ((fmt_d b ++ suf).length : Int) := by
    apply toInt32_of_InInt
    unfold InInt INT_MIN
    exact ⟨by omega, hlen⟩
  unfold Alias.fs_write
  simp only [pathfix_brightness, if_true, sscanf_d_fmt_d b hb suf hsuf, clamp_code_eq b _ hm,
    hreq, hlen2]

/-- Alias variant: with a positive `max_brightness` the division of
`request_bri_update` has a result, so the call returns. -/
theorem Alias.request_bri_update_returns (t : Alias.Target) (junk bri maxbri : Int)
    (hm : maxbri ≠ 0) : ∃ r t1, Alias.request_bri_update t junk bri maxbri = some (r, t1) := by
  unfold Alias.request_bri_update Alias.scale c_div
  simp only [if_neg hm, Option.map_some']
  split_ifs <;> exact ⟨_, _, rfl⟩


/-! ## Alias scaling -/

theorem toInt64_of_bounds {x : Int} (h0 : 0 ≤ x) (h1 : x ≤ 2147483647 * 2147483647) :
    toInt64 x = x := by
  unfold toInt64
  omega

/-- For a request inside `[0, M1]` the scaled value is the floor of
`M2 * b / M1`: neither the 64-bit product nor the conversion to `int` loses
anything. -/
theorem Alias.scale_eq (M1 M2 b : Int) (h1 : 0 < M1) (h2 : 0 < M2) (hM2 : InInt M2)
    (hb0 : 0 ≤ b) (hb1 : b ≤ M1) (hM1 : InInt M1) :
    Alias.scale M2 b M1 = some (M2 * b / M1) ∧ toInt64 (M2 * b) = M2 * b := by
  unfold InInt INT_MIN INT_MAX at hM1 hM2
  have hp0 : 0 ≤ M2 * b := Int.mul_nonneg (le_of_lt h2) hb0
  have hp1 : M2 * b ≤ 2147483647 * 2147483647 :=
    Int.mul_le_mul hM2.2 (le_trans hb1 hM1.2) hb0 (by decide)
  have h64 := toInt64_of_bounds hp0 hp1
  have hq0 : 0 ≤ M2 * b / M1 := Int.ediv_nonneg hp0 (le_of_lt h1)
  have hq1 : M2 * b / M1 ≤ M2 := by
    apply Int.ediv_le_of_le_mul h1
    exact Int.mul_le_mul_of_nonneg_left hb1 (le_of_lt h2)
  refine ⟨?_, h64⟩
  unfold Alias.scale c_div
  rw [if_neg (ne_of_gt h1), h64, Int.tdiv_eq_ediv hp0 (le_of_lt h1)]
  simp only [Option.map_some']
  rw [toInt32_of_InInt]
  unfold InInt INT_MIN INT_MAX
  omega

/-- With a readable positive maximum, an openable `brightness` file and a
write that succeeds, `request_bri_update` appends the decimal line of the
scaled value to the second device and returns 0. -/
theorem Alias.request_bri_update_ok (t : Alias.Target) (junk bri maxbri v : Int)
    (hmax : 0 < readnum t.max_brightness junk)
    (hscale : Alias.scale (readnum t.max_brightness junk) bri maxbri = some v)
    (hopen : t.can_open = true) (hw : t.write_ok = true) :
    Alias.request_bri_update t junk bri maxbri
      = some (0, { t with writes := t.writes ++ [fmt_d_nl v] }) := by
  unfold Alias.request_bri_update
  simp only [if_neg (not_le.2 hmax), hscale, hopen, hw, if_true, Bool.true_eq_false, if_false]


/-! ## The smoothing worker -/

theorem tdiv_bounds_of_nonneg {a m : Int} (ha : 0 ≤ a) (hm : 0 < m) :
    0 ≤ a.tdiv m ∧ a.tdiv m ≤ a := by
  rw [Int.tdiv_eq_ediv ha (le_of_lt hm)]
  exact ⟨Int.ediv_nonneg ha (le_of_lt hm), Int.ediv_le_self m ha⟩

theorem tdiv_bounds_of_neg {a m : Int} (ha : a < 0) (hm : 0 < m) :
    a ≤ a.tdiv m ∧ a.tdiv m ≤ 0 := by
  have h := tdiv_bounds_of_nonneg (a := -a) (by omega) hm
  rw [Int.neg_tdiv] at h
  omega

/-- The step count of `makestep` is at least `MIN_PERIOD / MIN_INTERVAL`,
whatever the period computation produced. -/
theorem max_step_count_ge (p : Int) :
    100 ≤ Int.tdiv (if p < MIN_PERIOD then MIN_PERIOD else p) MIN_INTERVAL := by
  unfold MIN_PERIOD MIN_INTERVAL
  split_ifs with h
  · decide
  · rw [Int.tdiv_eq_ediv (by omega) (by decide)]
    omega

/-- The result of `makestep`: no motion at the target; otherwise a step of
magnitude at least 1 and at most the remaining distance, in the direction of
the target, and the tick interval `MIN_INTERVAL`. -/
theorem Smooth.makestep_spec (maxbri bri realbri : Int) (hd : InInt (bri - realbri)) :
    (bri = realbri → Smooth.makestep maxbri bri realbri = (0, -1)) ∧
    (realbri < bri → (Smooth.makestep maxbri bri realbri).2 = MIN_INTERVAL ∧
      1 ≤ (Smooth.makestep maxbri bri realbri).1 ∧
      (Smooth.makestep maxbri bri realbri).1 ≤ bri - realbri) ∧
    (bri < realbri → (Smooth.makestep maxbri bri realbri).2 = MIN_INTERVAL ∧
      bri - realbri ≤ (Smooth.makestep maxbri bri realbri).1 ∧
      (Smooth.makestep maxbri bri realbri).1 ≤ -1) := by
  have ht : toInt32 (bri - realbri) = bri - realbri := toInt32_of_InInt hd
  unfold Smooth.makestep
  simp only [ht]
  refine ⟨?_, ?_, ?_⟩
  · intro h
    rw [if_pos (by omega)]
  · intro h
    rw [if_neg (by omega)]
    simp only
    generalize (Int.tdiv (toInt32 (toInt32 (c_abs (bri - realbri) * SPEED) + Int.tdiv maxbri 2))
      maxbri) = p
    have hc := max_step_count_ge p
    generalize (Int.tdiv (if p < MIN_PERIOD then MIN_PERIOD else p) MIN_INTERVAL) = m at hc
    have hb := tdiv_bounds_of_nonneg (a := bri - realbri) (m := m) (by omega) (by omega)
    refine ⟨trivial, ?_, ?_⟩ <;> split_ifs <;> omega
  · intro h
    rw [if_neg (by omega)]
    simp only
    generalize (Int.tdiv (toInt32 (toInt32 (c_abs (bri - realbri) * SPEED) + Int.tdiv maxbri 2))
      maxbri) = p
    have hc := max_step_count_ge p
    generalize (Int.tdiv (if p < MIN_PERIOD then MIN_PERIOD else p) MIN_INTERVAL) = m at hc
    have hb := tdiv_bounds_of_neg (a := bri - realbri) (m := m) (by omega) (by omega)
    refine ⟨trivial, ?_, ?_⟩ <;> split_ifs <;> omega

/-- One `advance` with a successful device write: the worker stays in range,
its target is kept, and either it was at the target (nothing written, it becomes
idle) or it writes its new device value, which lies strictly nearer to the
target and not beyond it. -/
theorem Smooth.advance_spec (w : Smooth.Worker) (hg : Smooth.Ranged w) :
    Smooth.Ranged (Smooth.advance w true).1 ∧
    (Smooth.advance w true).1.running = w.running ∧
    Smooth.Settled (Smooth.advance w true).1 ∧
    (Smooth.advance w true).1.bri = w.bri ∧ (Smooth.advance w true).1.maxbri = w.maxbri ∧
    ((w.realbri = w.bri ∧ (Smooth.advance w true).2 = none ∧
        (Smooth.advance w true).1.realbri = w.realbri ∧
        (Smooth.advance w true).1.intval = -1 ∧ (Smooth.advance w true).1.step = 0) ∨
     (w.realbri ≠ w.bri ∧
        (Smooth.advance w true).2 = some (Smooth.advance w true).1.realbri ∧
        (Smooth.advance w true).1.intval = MIN_INTERVAL ∧
        ((w.realbri < (Smooth.advance w true).1.realbri ∧
            (Smooth.advance w true).1.realbri ≤ w.bri) ∨
         (w.bri ≤ (Smooth.advance w true).1.realbri ∧
            (Smooth.advance w true).1.realbri < w.realbri)))) := by
  obtain ⟨hb0, hb1, hr0, hr1⟩ := hg
  unfold INT_MAX at hb1 hr1
  have hd : InInt (w.bri - w.realbri) := by
    unfold InInt INT_MIN INT_MAX; omega
  obtain ⟨heq, hup, hdown⟩ := Smooth.makestep_spec w.maxbri w.bri w.realbri hd
  rcases lt_trichotomy w.realbri w.bri with hlt | he | hgt
  · obtain ⟨hi, hs1, hs2⟩ := hup hlt
    have hne : w.realbri ≠ w.bri := by omega
    have h32 : toInt32 (w.realbri + (Smooth.makestep w.maxbri w.bri w.realbri).1)
        = w.realbri + (Smooth.makestep w.maxbri w.bri w.realbri).1 := by
      apply toInt32_of_InInt; unfold InInt INT_MIN INT_MAX; omega
    have hv : Smooth.update_value (w.realbri + (Smooth.makestep w.maxbri w.bri w.realbri).1)
        = w.realbri + (Smooth.makestep w.maxbri w.bri w.realbri).1 := by
      unfold Smooth.update_value; rw [if_neg (by omega)]
    simp only [Smooth.advance, ne_eq, hne, not_false_eq_true, if_true, h32,
      Smooth.update_brightness, hv, not_true_eq_false, if_false, Smooth.Ranged, Smooth.Settled,
      hi, INT_MAX, false_and, false_or, and_true, true_and, or_true]
    omega
  · have hm := heq he.symm
    have hm2 := hm
    rw [he] at hm2
    simp only [Smooth.advance, hm, hm2, ne_eq, he, not_true_eq_false, if_false, Smooth.Ranged,
      Smooth.Settled, INT_MAX, true_and, and_true, true_or, and_self, or_false]
    omega
  · obtain ⟨hi, hs1, hs2⟩ := hdown hgt
    have hne : w.realbri ≠ w.bri := by omega
    have h32 : toInt32 (w.realbri + (Smooth.makestep w.maxbri w.bri w.realbri).1)
        = w.realbri + (Smooth.makestep w.maxbri w.bri w.realbri).1 := by
      apply toInt32_of_InInt; unfold InInt INT_MIN INT_MAX; omega
    have hv : Smooth.update_value (w.realbri + (Smooth.makestep w.maxbri w.bri w.realbri).1)
        = w.realbri + (Smooth.makestep w.maxbri w.bri w.realbri).1 := by
      unfold Smooth.update_value; rw [if_neg (by omega)]
    simp only [Smooth.advance, ne_eq, hne, not_false_eq_true, if_true, h32,
      Smooth.update_brightness, hv, not_true_eq_false, if_false, Smooth.Ranged, Smooth.Settled,
      hi, INT_MAX, false_and, false_or, and_true, true_and, or_true]
    omega

/-- A failing device write changes neither the target nor the new device
value of `advance`; it only ends the loop, and nothing is written. -/
theorem Smooth.advance_fail (w : Smooth.Worker) :
    (Smooth.advance w false).2 = none ∧
    (Smooth.advance w false).1.realbri = (Smooth.advance w true).1.realbri ∧
    (Smooth.advance w false).1.bri = (Smooth.advance w true).1.bri ∧
    (Smooth.advance w false).1.maxbri = (Smooth.advance w true).1.maxbri := by
  unfold Smooth.advance Smooth.update_brightness
  simp only
  split_ifs <;> simp_all

/-- One `advance`, whether or not its device write succeeds: the target is
kept, the device value moves toward the target without passing it, and the
value written, if any, is the new device value. -/
theorem Smooth.advance_any (w : Smooth.Worker) (wok : Bool) (hg : Smooth.Ranged w) :
    Smooth.Ranged (Smooth.advance w wok).1 ∧
    (Smooth.advance w wok).1.bri = w.bri ∧ (Smooth.advance w wok).1.maxbri = w.maxbri ∧
    (∀ v ∈ (Smooth.advance w wok).2, v = (Smooth.advance w wok).1.realbri) ∧
    (w.realbri ≤ w.bri → w.realbri ≤ (Smooth.advance w wok).1.realbri ∧
      (Smooth.advance w wok).1.realbri ≤ w.bri) ∧
    (w.bri ≤ w.realbri → w.bri ≤ (Smooth.advance w wok).1.realbri ∧
      (Smooth.advance w wok).1.realbri ≤ w.realbri) := by
  obtain ⟨hr, -, -, hb, hm, hcase⟩ := Smooth.advance_spec w hg
  have key : (w.realbri ≤ w.bri → w.realbri ≤ (Smooth.advance w true).1.realbri ∧
      (Smooth.advance w true).1.realbri ≤ w.bri) ∧
    (w.bri ≤ w.realbri → w.bri ≤ (Smooth.advance w true).1.realbri ∧
      (Smooth.advance w true).1.realbri ≤ w.realbri) := by
    rcases hcase with ⟨h1, -, h3, -, -⟩ | ⟨-, -, -, h4⟩ <;> omega
  cases wok with
  | true =>
    refine ⟨hr, hb, hm, ?_, key⟩
    intro v hv
    rcases hcase with ⟨-, h2, -, -, -⟩ | ⟨-, h2, -, -⟩
    · rw [h2] at hv; simp at hv
    · rw [h2] at hv; simpa using hv.symm
  | false =>
    obtain ⟨f1, f2, f3, f4⟩ := Smooth.advance_fail w
    unfold Smooth.Ranged at hr ⊢
    rw [f2, f3, f4]
    refine ⟨hr, hb, hm, ?_, key⟩
    intro v hv
    rw [f1] at hv; simp at hv

/-- One loop iteration that receives no message keeps the target and moves
the device value toward it without passing it; what it writes is the new
device value. -/
theorem Smooth.child_iter_no_message (w : Smooth.Worker) (ev : Smooth.Wake) (wok : Bool)
    (hg : Smooth.Ranged w) (hev : ev.isMessage = false) :
    Smooth.Ranged (Smooth.child_iter w ev wok).1 ∧
    (Smooth.child_iter w ev wok).1.bri = w.bri ∧
    (∀ v ∈ (Smooth.child_iter w ev wok).2, v = (Smooth.child_iter w ev wok).1.realbri) ∧
    (w.realbri ≤ w.bri → w.realbri ≤ (Smooth.child_iter w ev wok).1.realbri ∧
      (Smooth.child_iter w ev wok).1.realbri ≤ w.bri) ∧
    (w.bri ≤ w.realbri → w.bri ≤ (Smooth.child_iter w ev wok).1.realbri ∧
      (Smooth.child_iter w ev wok).1.realbri ≤ w.realbri) := by
  obtain ⟨a1, a2, -, a4, a5, a6⟩ := Smooth.advance_any w wok hg
  have hstay : ∀ w1 : Smooth.Worker, w1.bri = w.bri → w1.realbri = w.realbri →
      Smooth.Ranged w1 ∧ w1.bri = w.bri ∧
      (∀ v ∈ (none : Option Int), v = w1.realbri) ∧
      (w.realbri ≤ w.bri → w.realbri ≤ w1.realbri ∧ w1.realbri ≤ w.bri) ∧
      (w.bri ≤ w.realbri → w.bri ≤ w1.realbri ∧ w1.realbri ≤ w.realbri) := by
    intro w1 h1 h2
    unfold Smooth.Ranged at hg ⊢
    rw [h1, h2]
    refine ⟨hg, rfl, ?_, ?_, ?_⟩
    · intro v hv; simp at hv
    · intro h; omega
    · intro h; omega
  unfold Smooth.child_iter
  by_cases hrun : w.running = false
  · rw [if_pos hrun]
    exact hstay w rfl rfl
  · rw [if_neg hrun]
    cases ev with
    | timeout => exact ⟨a1, a2, a4, a5, a6⟩
    | nothing => exact ⟨a1, a2, a4, a5, a6⟩
    | message n => simp [Smooth.Wake.isMessage] at hev
    | closed => exact hstay _ rfl rfl
    | pollfail eagain =>
      simp only
      split_ifs
      · exact hstay _ rfl rfl
      · exact hstay _ rfl rfl

theorem chain_le_head {a b : Int} {l : List Int} (hab : a ≤ b)
    (h : List.Chain (· ≤ ·) b l) : List.Chain (· ≤ ·) a l := by
  cases l with
  | nil => exact List.Chain.nil
  | cons c cs =>
    rw [List.chain_cons] at h ⊢
    exact ⟨le_trans hab h.1, h.2⟩

theorem chain_ge_head {a b : Int} {l : List Int} (hab : b ≤ a)
    (h : List.Chain (· ≥ ·) b l) : List.Chain (· ≥ ·) a l := by
  cases l with
  | nil => exact List.Chain.nil
  | cons c cs =>
    rw [List.chain_cons] at h ⊢
    exact ⟨le_trans h.1 hab, h.2⟩

/-- A run of the loop without messages: the values written form a chain from
the starting device value toward the target and none passes the target. -/
theorem Smooth.run_no_message (evs : List (Smooth.Wake × Bool)) :
    ∀ w : Smooth.Worker, Smooth.Ranged w → (∀ e ∈ evs, e.1.isMessage = false) →
      (w.realbri ≤ w.bri → List.Chain (· ≤ ·) w.realbri (Smooth.run w evs).2 ∧
        ∀ v ∈ (Smooth.run w evs).2, v ≤ w.bri) ∧
      (w.bri ≤ w.realbri → List.Chain (· ≥ ·) w.realbri (Smooth.run w evs).2 ∧
        ∀ v ∈ (Smooth.run w evs).2, w.bri ≤ v) := by
  induction evs with
  | nil =>
    intro w _ _
    simp [Smooth.run]
  | cons e rest ih =>
    intro w hg hev
    obtain ⟨ev, wok⟩ := e
    have hev1 : ev.isMessage = false := hev (ev, wok) (by simp)
    obtain ⟨c1, c2, c3, c4, c5⟩ := Smooth.child_iter_no_message w ev wok hg hev1
    obtain ⟨iu, idn⟩ := ih (Smooth.child_iter w ev wok).1 c1
      (fun e he => hev e (List.mem_cons_of_mem _ he))
    rw [c2] at iu idn
    simp only [Smooth.run]
    constructor
    · intro hle
      obtain ⟨b1, b2⟩ := c4 hle
      obtain ⟨ch, bd⟩ := iu b2
      cases ho : (Smooth.child_iter w ev wok).2 with
      | none =>
        simp only [Option.toList, List.nil_append]
        exact ⟨chain_le_head b1 ch, bd⟩
      | some v =>
        have hv := c3 v (by rw [ho]; simp)
        simp only [Option.toList, List.singleton_append, List.chain_cons, List.mem_cons,
          forall_eq_or_imp]
        rw [hv]
        exact ⟨⟨b1, ch⟩, b2, bd⟩
    · intro hle
      obtain ⟨b1, b2⟩ := c5 hle
      obtain ⟨ch, bd⟩ := idn b1
      cases ho : (Smooth.child_iter w ev wok).2 with
      | none =>
        simp only [Option.toList, List.nil_append]
        exact ⟨chain_ge_head b2 ch, bd⟩
      | some v =>
        have hv := c3 v (by rw [ho]; simp)
        simp only [Option.toList, List.singleton_append, List.chain_cons, List.mem_cons,
          forall_eq_or_imp]
        rw [hv]
        exact ⟨⟨b2, ch⟩, b1, bd⟩


theorem Smooth.tick_until_idle_of_idle (fuel : Nat) (w : Smooth.Worker) (h : w.intval < 0) :
    Smooth.tick_until_idle fuel w = (w, []) := by
  cases fuel with
  | zero => rfl
  | succ f => simp only [Smooth.tick_until_idle, h, true_or, if_true]

/-- Left alone with enough fuel, a running worker reaches the idle state at
its target; every value it writes on the way lies between the starting device
value and the target, and the last one written is the target. -/
theorem Smooth.tick_until_idle_spec (fuel : Nat) :
    ∀ w : Smooth.Worker, Smooth.Ranged w → w.running = true → Smooth.Settled w →
      (w.bri - w.realbri).natAbs + 1 ≤ fuel →
      (Smooth.tick_until_idle fuel w).1.realbri = w.bri ∧
      (Smooth.tick_until_idle fuel w).1.bri = w.bri ∧
      (Smooth.tick_until_idle fuel w).1.intval = -1 ∧
      (Smooth.tick_until_idle fuel w).1.step = 0 ∧
      (Smooth.tick_until_idle fuel w).1.running = true ∧
      (Smooth.tick_until_idle fuel w).2.getLastD w.realbri = w.bri ∧
      ∀ v ∈ (Smooth.tick_until_idle fuel w).2, Between w.realbri v w.bri := by
  induction fuel with
  | zero => intro w _ _ _ hf; omega
  | succ f ih =>
    intro w hg hrun hs hf
    rcases hs with ⟨hi, hst, heq⟩ | hi
    · rw [Smooth.tick_until_idle_of_idle _ w (by omega)]
      exact ⟨heq, rfl, hi, hst, hrun, heq, by intro v hv; simp at hv⟩
    · have hni : ¬ (w.intval < 0 ∨ w.running = false) := by
        unfold MIN_INTERVAL at hi
        rw [hi, hrun]; simp
      have hci : Smooth.child_iter w Smooth.Wake.timeout true = Smooth.advance w true := by
        simp [Smooth.child_iter, hrun]
      obtain ⟨a1, a2, a3, a4, -, acase⟩ := Smooth.advance_spec w hg
      simp only [Smooth.tick_until_idle, if_neg hni, hci]
      rcases acase with ⟨e1, e2, e3, e4, e5⟩ | ⟨n1, n2, n3, n4⟩
      · rw [Smooth.tick_until_idle_of_idle f _ (by omega), e2]
        simp only [Option.toList, List.append_nil, List.getLastD_nil, List.not_mem_nil,
          false_implies, implies_true, and_true]
        exact ⟨by omega, a4, e4, e5, by rw [a2, hrun], e1⟩
      · have hf2 : ((Smooth.advance w true).1.bri - (Smooth.advance w true).1.realbri).natAbs + 1
            ≤ f := by rw [a4]; omega
        obtain ⟨i1, i2, i3, i4, i5, i6, i7⟩ := ih (Smooth.advance w true).1 a1
          (by rw [a2, hrun]) a3 hf2
        rw [a4] at i1 i2 i6 i7
        rw [n2]
        simp only [Option.toList, List.singleton_append, List.getLastD_cons, List.mem_cons,
          forall_eq_or_imp]
        refine ⟨i1, i2, i3, i4, i5, i6, ?_, ?_⟩
        · unfold Between; omega
        · intro v hv
          have := i7 v hv
          unfold Between at this ⊢
          omega


theorem Smooth.advance_step (w : Smooth.Worker) (hg : Smooth.Ranged w) :
    Smooth.Ranged (Smooth.advance w true).1 ∧
    (Smooth.advance w true).1.running = w.running ∧
    Smooth.Settled (Smooth.advance w true).1 ∧
    (Smooth.advance w true).1.bri = w.bri ∧
    (Smooth.advance w true).1.maxbri = w.maxbri ∧
    Between w.realbri (Smooth.advance w true).1.realbri w.bri ∧
    (w.bri - (Smooth.advance w true).1.realbri).natAbs ≤ (w.bri - w.realbri).natAbs ∧
    (∀ l : List Int, ((Smooth.advance w true).2.toList ++ l).getLastD w.realbri
      = l.getLastD (Smooth.advance w true).1.realbri) ∧
    (∀ v ∈ (Smooth.advance w true).2, v = (Smooth.advance w true).1.realbri) := by
  obtain ⟨a1, a2, a3, a4, a5, acase⟩ := Smooth.advance_spec w hg
  refine ⟨a1, a2, a3, a4, a5, ?_, ?_, ?_, ?_⟩
  · unfold Between
    rcases acase with ⟨e1, -, e3, -, -⟩ | ⟨-, -, -, n4⟩ <;> omega
  · rcases acase with ⟨e1, -, e3, -, -⟩ | ⟨-, -, -, n4⟩ <;> omega
  · intro l
    rcases acase with ⟨-, e2, e3, -, -⟩ | ⟨-, n2, -, -⟩
    · rw [e2, e3]; rfl
    · rw [n2]
      simp only [Option.toList, List.singleton_append, List.getLastD_cons]
  · intro v hv
    rcases acase with ⟨-, e2, -, -, -⟩ | ⟨-, n2, -, -⟩
    · rw [e2] at hv; simp at hv
    · rw [n2] at hv; simpa using hv.symm

/-- A message on a running worker: the target becomes the clamp of the
message, then the loop iteration advances. -/
theorem Smooth.child_iter_message (w : Smooth.Worker) (t : Int) (wok : Bool)
    (hrun : w.running = true) (hmax : 0 ≤ w.maxbri) :
    Smooth.child_iter w (Smooth.Wake.message t) wok
      = Smooth.advance { w with bri := clamp t 0 w.maxbri } wok := by
  simp only [Smooth.child_iter, hrun, Bool.true_eq_false, if_false, clamp_code_eq t _ hmax]

theorem between_trans {a x y c : Int} (h1 : Between a x c) (h2 : Between x y c) :
    Between a y c := by
  unfold Between at *
  omega


/-! ## The states the worker can be in -/

theorem toInt32_InInt (x : Int) : InInt (toInt32 x) := by
  unfold InInt INT_MIN INT_MAX toInt32
  omega

theorem sscanf_d_InInt (s : List Char) (v : Int) (h : sscanf_d s = some v) : InInt v := by
  unfold sscanf_d at h
  split at h
  · simp at h
  · split_ifs at h
    · split at h
      · simp at h
      · split_ifs at h
        simp only [Option.some.injEq] at h
        rw [← h]; exact toInt32_InInt _
    · split at h
      · simp at h
      · split_ifs at h
        simp only [Option.some.injEq] at h
        rw [← h]; exact toInt32_InInt _
    · simp only [Option.some.injEq] at h
      rw [← h]; exact toInt32_InInt _

/-- The result of `readnum` is -1 or a non-negative `int`, provided the
indeterminate value of its local is an `int`. -/
theorem readnum_range (file : Option (List Char)) (junk : Int) (hj : InInt junk) :
    -1 ≤ readnum file junk ∧ readnum file junk ≤ INT_MAX := by
  unfold readnum
  cases readfile file 19 with
  | none => simp [INT_MAX]
  | some buf =>
    simp only
    have hn : InInt ((sscanf_d (cstr buf)).getD junk) := by
      cases hs : sscanf_d (cstr buf) with
      | none => exact hj
      | some v => exact sscanf_d_InInt _ v hs
    unfold InInt INT_MIN INT_MAX at hn
    unfold INT_MAX
    split_ifs <;> omega

/-- The worker that `child` starts with is running, has a positive maximum,
and sits at its target, a non-negative `int`. -/
theorem Smooth.child_init_state (brightness max_brightness : Option (List Char))
    (junk_b junk_m : Int) (w : Smooth.Worker) (hb : InInt junk_b) (hm : InInt junk_m)
    (h : Smooth.child_init brightness max_brightness junk_b junk_m = some w) :
    w.running = true ∧ 0 < w.maxbri ∧ w.maxbri ≤ INT_MAX ∧ Smooth.Ranged w ∧
    w.realbri = w.bri := by
  have r1 := readnum_range brightness junk_b hb
  have r2 := readnum_range max_brightness junk_m hm
  unfold Smooth.child_init at h
  simp only at h
  split_ifs at h with h0 h1
  · simp only [Option.some.injEq] at h
    subst h
    unfold INT_MAX at r1 r2
    refine ⟨rfl, ?_, ?_, ⟨?_, ?_, ?_, ?_⟩, rfl⟩ <;> simp only [INT_MAX] <;> omega
  · simp only [Option.some.injEq] at h
    subst h
    unfold INT_MAX at r1 r2
    refine ⟨rfl, ?_, ?_, ⟨?_, ?_, ?_, ?_⟩, rfl⟩ <;> simp only [INT_MAX] <;> omega

/-- Every loop iteration keeps the maximum, and keeps the target and the
device value non-negative `int`s. -/
theorem Smooth.child_iter_keeps (w : Smooth.Worker) (ev : Smooth.Wake) (wok : Bool)
    (hg : Smooth.Ranged w) (hmax : 0 < w.maxbri) (hmaxI : w.maxbri ≤ INT_MAX) :
    Smooth.Ranged (Smooth.child_iter w ev wok).1 ∧
    (Smooth.child_iter w ev wok).1.maxbri = w.maxbri := by
  obtain ⟨a1, -, a3, -, -, -⟩ := Smooth.advance_any w wok hg
  have hstay : ∀ w1 : Smooth.Worker, w1.bri = w.bri → w1.realbri = w.realbri →
      w1.maxbri = w.maxbri → Smooth.Ranged w1 ∧ w1.maxbri = w.maxbri := by
    intro w1 h1 h2 h3
    unfold Smooth.Ranged at hg ⊢
    rw [h1, h2]
    exact ⟨hg, h3⟩
  unfold Smooth.child_iter
  by_cases hrun : w.running = false
  · rw [if_pos hrun]
    exact hstay w rfl rfl rfl
  · rw [if_neg hrun]
    cases ev with
    | timeout => exact ⟨a1, a3⟩
    | nothing => exact ⟨a1, a3⟩
    | closed => exact hstay _ rfl rfl rfl
    | pollfail eagain =>
      simp only
      split_ifs
      · exact hstay _ rfl rfl rfl
      · exact hstay _ rfl rfl rfl
    | message n =>
      simp only
      rw [clamp_code_eq n _ (le_of_lt hmax)]
      have hc : 0 ≤ clamp n 0 w.maxbri ∧ clamp n 0 w.maxbri ≤ w.maxbri := by
        unfold clamp; split_ifs <;> omega
      have hg2 : Smooth.Ranged { w with bri := clamp n 0 w.maxbri } := by
        unfold Smooth.Ranged at hg ⊢
        simp only
        omega
      obtain ⟨b1, -, b3, -, -, -⟩ := Smooth.advance_any _ wok hg2
      exact ⟨b1, b3⟩

/-- Every state the worker reaches from its startup, through any sequence of
wake-ups, has a positive maximum and a non-negative `int` as target and as
device value. -/
theorem Smooth.run_keeps (evs : List (Smooth.Wake × Bool)) :
    ∀ w : Smooth.Worker, Smooth.Ranged w → 0 < w.maxbri → w.maxbri ≤ INT_MAX →
      Smooth.Ranged (Smooth.run w evs).1 ∧ (Smooth.run w evs).1.maxbri = w.maxbri := by
  induction evs with
  | nil => intro w hg _ _; exact ⟨hg, rfl⟩
  | cons e rest ih =>
    intro w hg hmax hmaxI
    obtain ⟨ev, wok⟩ := e
    obtain ⟨k1, k2⟩ := Smooth.child_iter_keeps w ev wok hg hmax hmaxI
    obtain ⟨i1, i2⟩ := ih (Smooth.child_iter w ev wok).1 k1 (by rw [k2]; exact hmax)
      (by rw [k2]; exact hmaxI)
    simp only [Smooth.run]
    exact ⟨i1, by rw [i2, k2]⟩

/-! ## Properties of the specification -/

/-- Alias variant with a non-zero `max_brightness`: the write of the decimal
text of `b` returns, and the read of `brightness` that follows returns the
decimal line of `clamp b 0 max_brightness`. -/
theorem alias_write_then_read (s : Alias.State) (junk b : Int) (suf : List Char) (off : Int)
    (sys : Sys) (dev : Option (List Char)) (junk2 : Int) (buf : List Char)
    (sz : Nat) (off2 : Int) (sys2 : Sys)
    (hm : 0 < s.max_brightness) (hb : InInt b)
    (hsuf : ∀ c ∈ suf.head?, isdigit c = false)
    (hlen : ((fmt_d b ++ suf).length : Int) ≤ INT_MAX)
    (hsz : (fmt_d_nl (clamp b 0 s.max_brightness)).length < sz)
    (hlen2 : ((fmt_d_nl (clamp b 0 s.max_brightness)).length : Int) ≤ INT_MAX) :
    ∃ s1, Alias.fs_write s junk "/brightness".toList (fmt_d b ++ suf) off sys
        = some (((fmt_d b ++ suf).length : Int), s1) ∧
      (fs_read s1.target_brightness dev junk2 "/brightness".toList buf sz off2 sys2).2
        = fmt_d_nl (clamp b 0 s.max_brightness) := by
  obtain ⟨r, t, hreq⟩ := Alias.request_bri_update_returns s.tdev junk
    (clamp b 0 s.max_brightness) s.max_brightness (ne_of_gt hm)
  refine ⟨_, alias_fs_write_brightness s junk b suf off sys r t (le_of_lt hm) hb hsuf hlen hreq,
    ?_⟩
  simp only
  rw [fs_read_brightness _ dev junk2 buf sz off2 sys2 hsz hlen2]

/-- C1, at the input where the alias program breaks it. A mount context with
`max_brightness = 0` passes the startup validation of `main`; with a second
device whose maximum reads 100, the write of `5` to `brightness` then has no
result, because `request_bri_update` divides by `maxbri = 0`. No read that
returns the line of `clamp 5 0 0 = 0` can follow. -/
theorem C1_alias_write_at_zero_max :
    Alias.main_init (some "7\n".toList) (some "0\n".toList) 0 0 true
        ⟨some "100\n".toList, true, true, []⟩
      = some ⟨7, 0, ⟨some "100\n".toList, true, true, []⟩, false⟩ ∧
    Alias.fs_write ⟨7, 0, ⟨some "100\n".toList, true, true, []⟩, false⟩ 0
      "/brightness".toList "5\n".toList 0 ⟨0, 0, []⟩ = none := by
  decide

/-- C2: in both programs a write to `actual_brightness` returns `-EBADF`, the
error of a write on a descriptor that is not open for writing, whatever the
payload, the offset and the state; the state that comes back is the state that
went in, so the cached target, the channel, the second device and the kill flag
are all untouched. -/
theorem C2_actual_brightness_write_rejected (sa : Alias.State) (ss : Smooth.State)
    (junk : Int) (payload : List Char) (off : Int) (send_ok : Bool) (sys : Sys) :
    Alias.fs_write sa junk "/actual_brightness".toList payload off sys = some (-EBADF, sa) ∧
    Smooth.fs_write ss "/actual_brightness".toList payload off send_ok sys = (-EBADF, ss) := by
  unfold Alias.fs_write Smooth.fs_write
  simp only [pathfix_actual_brightness, if_neg actual_ne_brightness, if_true, and_self]

/-- C3, at the input where the code breaks it: `fs_open` on `actual_brightness`
with the access mode `O_RDWR` returns 0, the success value, because the test
`fi->flags & O_WRONLY` only sees bit 0 and `O_RDWR` is 2. With `O_WRONLY` the
open is rejected with `-EACCES`. -/
theorem C3_open_rdwr_accepted (sys : Sys) :
    fs_open "/actual_brightness".toList O_RDWR sys = (0, none) ∧
    fs_open "/actual_brightness".toList O_WRONLY sys = (-EACCES, none) := by
  unfold fs_open
  simp only [pathfix_actual_brightness, if_neg actual_ne_brightness, if_true]
  constructor <;> decide

/-- C4: a payload on which `sscanf("%d")` fails makes the write to `brightness`
return `-EINVAL` in both programs, with the state unchanged (same target,
nothing sent to the channel, nothing written to the second device); a payload
on which it succeeds never gives `-EINVAL`: the smoothing program returns the
payload size and the alias program, whenever it returns, returns the payload
size too. The decimal text that `printf("%d")` gives for an `int`, followed by
nothing or by anything that does not start with a digit, is such a payload. -/
theorem C4_brightness_write_einval (sa : Alias.State) (ss : Smooth.State) (junk : Int)
    (payload : List Char) (off : Int) (send_ok : Bool) (sys : Sys) :
    (sscanf_d (cstr payload) = none →
      Alias.fs_write sa junk "/brightness".toList payload off sys = some (-EINVAL, sa) ∧
      Smooth.fs_write ss "/brightness".toList payload off send_ok sys = (-EINVAL, ss)) ∧
    (∀ v, sscanf_d (cstr payload) = some v → (payload.length : Int) ≤ INT_MAX →
      (Smooth.fs_write ss "/brightness".toList payload off send_ok sys).1 = payload.length ∧
      (Smooth.fs_write ss "/brightness".toList payload off send_ok sys).1 ≠ -EINVAL ∧
      ∀ r, Alias.fs_write sa junk "/brightness".toList payload off sys = some r →
        r.1 = payload.length ∧ r.1 ≠ -EINVAL) ∧
    (∀ b suf, InInt b → (∀ c ∈ suf.head?, isdigit c = false) → payload = fmt_d b ++ suf →
      sscanf_d (cstr payload) = some b) := by
  refine ⟨?_, ?_, fun b suf hb hsuf hp => by rw [hp]; exact sscanf_d_fmt_d b hb suf hsuf⟩
  · intro h
    unfold Alias.fs_write Smooth.fs_write
    simp only [pathfix_brightness, if_true, h, and_self]
  · intro v h hlen
    have h32 : toInt32 (payload.length : Int) = payload.length := by
      apply toInt32_of_InInt
      unfold InInt INT_MIN
      exact ⟨by omega, hlen⟩
    have hne : (payload.length : Int) ≠ -EINVAL := by unfold EINVAL; omega
    refine ⟨?_, ?_, ?_⟩
    · unfold Smooth.fs_write
      simp only [pathfix_brightness, if_true, h, h32]
    · unfold Smooth.fs_write
      simp only [pathfix_brightness, if_true, h, h32]
      exact hne
    · intro r hr
      unfold Alias.fs_write at hr
      simp only [pathfix_brightness, if_true, h, h32] at hr
      split at hr
      · simp at hr
      · simp only [Option.some.injEq] at hr
        rw [← hr]
        exact ⟨rfl, hne⟩

/-- The theorem of C4 at the payloads `abc` (rejected) and `12` with a newline
(accepted, size 3). -/
theorem C4_brightness_write_einval_witness :
    (Smooth.fs_write ⟨7, 255, [], false⟩ "/brightness".toList "abc".toList 0 true ⟨0, 0, []⟩
      = (-EINVAL, ⟨7, 255, [], false⟩)) ∧
    (Smooth.fs_write ⟨7, 255, [], false⟩ "/brightness".toList "12\n".toList 0 true
      ⟨0, 0, []⟩).1 = 3 :=
  ⟨((C4_brightness_write_einval ⟨7, 255, ⟨none, true, true, []⟩, false⟩ ⟨7, 255, [], false⟩ 0
      "abc".toList 0 true ⟨0, 0, []⟩).1 (by decide)).2,
   ((C4_brightness_write_einval ⟨7, 255, ⟨none, true, true, []⟩, false⟩ ⟨7, 255, [], false⟩ 0
      "12\n".toList 0 true ⟨0, 0, []⟩).2.1 12 (by decide) (by decide)).1⟩

/-- C5 as stated fails: with `M1 = 3`, `M2 = 2` and the request `b = 1` the
exact quotient is 2/3, whose nearest integer is 1, but the value computed and
written to the second device is 0. -/
theorem C5_round_counterexample :
    Alias.scale 2 1 3 = some 0 ∧ ¬ IsNearest 0 (1 * 2) 3 ∧ IsNearest 1 (1 * 2) 3 ∧
    Alias.request_bri_update ⟨some "2\n".toList, true, true, []⟩ 0 1 3
      = some (0, ⟨some "2\n".toList, true, true, ["0\n".toList]⟩) := by
  decide

/-- C5 amended: for `M1 > 0`, `M2 > 0` and `0 ≤ b ≤ M1` the alias backend
writes the decimal line of the floor of `b * M2 / M1` to the second device:
the greatest integer `q` with `q * M1 ≤ b * M2`. -/
theorem C5_alias_scaling_floor (t : Alias.Target) (junk M1 M2 b : Int)
    (h1 : 0 < M1) (hM1 : InInt M1) (h2 : 0 < M2) (hM2 : InInt M2)
    (hread : readnum t.max_brightness junk = M2)
    (hb0 : 0 ≤ b) (hb1 : b ≤ M1) (hopen : t.can_open = true) (hw : t.write_ok = true) :
    Alias.request_bri_update t junk b M1
      = some (0, { t with writes := t.writes ++ [fmt_d_nl (M2 * b / M1)] }) ∧
    (M2 * b / M1) * M1 ≤ b * M2 ∧ b * M2 < (M2 * b / M1 + 1) * M1 := by
  obtain ⟨hs, -⟩ := Alias.scale_eq M1 M2 b h1 h2 hM2 hb0 hb1 hM1
  refine ⟨?_, ?_, ?_⟩
  · apply Alias.request_bri_update_ok t junk b M1 _ (by rw [hread]; exact h2)
      (by rw [hread]; exact hs) hopen hw
  · rw [mul_comm b M2]
    exact Int.ediv_mul_le _ (ne_of_gt h1)
  · rw [mul_comm b M2]
    exact Int.lt_ediv_add_one_mul_self _ h1

/-- The theorem of C5 amended at `M1 = 3`, `M2 = 2`, `b = 1`: the line of 0 is
written. -/
theorem C5_alias_scaling_floor_witness :
    Alias.request_bri_update ⟨some "2\n".toList, true, true, []⟩ 0 1 3
      = some (0, { (⟨some "2\n".toList, true, true, []⟩ : Alias.Target) with
          writes := [] ++ [fmt_d_nl (2 * 1 / 3)] }) :=
  (C5_alias_scaling_floor ⟨some "2\n".toList, true, true, []⟩ 0 3 2 1 (by decide) (by decide)
    (by decide) (by decide) (by decide) (by decide) (by decide) rfl rfl).1

/-- C6: for `M1 > 0` and `M2 > 0` in the `int` range, the alias backend writes
the line of 0 for the request 0 and the line of `M2` for the request `M1`, and
the 64-bit product `tmax * bri` is exact in both cases. -/
theorem C6_alias_endpoints (t : Alias.Target) (junk M1 M2 : Int)
    (h1 : 0 < M1) (hM1 : InInt M1) (h2 : 0 < M2) (hM2 : InInt M2)
    (hread : readnum t.max_brightness junk = M2)
    (hopen : t.can_open = true) (hw : t.write_ok = true) :
    Alias.request_bri_update t junk 0 M1
      = some (0, { t with writes := t.writes ++ [fmt_d_nl 0] }) ∧
    Alias.request_bri_update t junk M1 M1
      = some (0, { t with writes := t.writes ++ [fmt_d_nl M2] }) ∧
    toInt64 (M2 * 0) = M2 * 0 ∧ toInt64 (M2 * M1) = M2 * M1 := by
  obtain ⟨hs0, hp0⟩ := Alias.scale_eq M1 M2 0 h1 h2 hM2 (le_refl 0) (le_of_lt h1) hM1
  obtain ⟨hs1, hp1⟩ := Alias.scale_eq M1 M2 M1 h1 h2 hM2 (le_of_lt h1) (le_refl M1) hM1
  have e0 : M2 * 0 / M1 = 0 := by simp
  have e1 : M2 * M1 / M1 = M2 := Int.mul_ediv_cancel _ (ne_of_gt h1)
  rw [e0] at hs0
  rw [e1] at hs1
  exact ⟨Alias.request_bri_update_ok t junk 0 M1 0 (by rw [hread]; exact h2)
      (by rw [hread]; exact hs0) hopen hw,
    Alias.request_bri_update_ok t junk M1 M1 M2 (by rw [hread]; exact h2)
      (by rw [hread]; exact hs1) hopen hw, hp0, hp1⟩

/-- The theorem of C6 at `M1 = 255`, `M2 = 100`. -/
theorem C6_alias_endpoints_witness :
    Alias.request_bri_update ⟨some "100\n".toList, true, true, []⟩ 0 255 255
      = some (0, ⟨some "100\n".toList, true, true, ["100\n".toList]⟩) :=
  (C6_alias_endpoints ⟨some "100\n".toList, true, true, []⟩ 0 255 100 (by decide) (by decide)
    (by decide) (by decide) (by decide) rfl rfl).2.1

/-- C7, at the input where the code breaks it: the second device has a
readable maximum (100) and its `brightness` file opens, but the `write` fails;
`request_bri_update` still returns 0, nothing has been written, and `fs_write`
does not raise the interrupt. -/
theorem C7_write_failure_unreported :
    Alias.request_bri_update ⟨some "100\n".toList, true, false, []⟩ 0 50 255
      = some (0, ⟨some "100\n".toList, true, false, []⟩) ∧
    Alias.fs_write ⟨7, 255, ⟨some "100\n".toList, true, false, []⟩, false⟩ 0
      "/brightness".toList "50\n".toList 0 ⟨0, 0, []⟩
      = some (3, ⟨50, 255, ⟨some "100\n".toList, true, false, []⟩, false⟩) := by
  decide


/-- C8: a running worker with `0 < maxbri`, device value `realbri` and a new
target, both in `[0, maxbri]`, receives the target and then no further message
(ticks, empty wake-ups, failed polls, device writes that succeed or fail, in
any order). If the target is above the device value, the values written form
a non-decreasing chain that starts from the device value and none exceeds the
target; if it is below, the chain is non-increasing and none is under the
target. -/
theorem C8_ramp_monotone (w : Smooth.Worker) (target : Int) (wok : Bool)
    (rest : List (Smooth.Wake × Bool))
    (hrun : w.running = true) (hmax : 0 < w.maxbri) (hmaxI : w.maxbri ≤ INT_MAX)
    (hr0 : 0 ≤ w.realbri) (hr1 : w.realbri ≤ w.maxbri)
    (ht0 : 0 ≤ target) (ht1 : target ≤ w.maxbri)
    (hrest : ∀ e ∈ rest, e.1.isMessage = false) :
    (w.realbri < target →
      List.Chain (· ≤ ·) w.realbri
        (Smooth.run w ((Smooth.Wake.message target, wok) :: rest)).2 ∧
      ∀ v ∈ (Smooth.run w ((Smooth.Wake.message target, wok) :: rest)).2, v ≤ target) ∧
    (target < w.realbri →
      List.Chain (· ≥ ·) w.realbri
        (Smooth.run w ((Smooth.Wake.message target, wok) :: rest)).2 ∧
      ∀ v ∈ (Smooth.run w ((Smooth.Wake.message target, wok) :: rest)).2, target ≤ v) := by
  have hc : clamp target 0 w.maxbri = target := by unfold clamp; split_ifs <;> omega
  have hrw : Smooth.run w ((Smooth.Wake.message target, wok) :: rest)
      = Smooth.run { w with bri := target } ((Smooth.Wake.timeout, wok) :: rest) := by
    simp only [Smooth.run, Smooth.child_iter_message w target wok hrun (le_of_lt hmax), hc]
    simp only [Smooth.child_iter, hrun, Bool.true_eq_false, if_false]
  rw [hrw]
  have hg : Smooth.Ranged { w with bri := target } := by
    unfold Smooth.Ranged
    simp only
    omega
  have hev : ∀ e ∈ (Smooth.Wake.timeout, wok) :: rest, e.1.isMessage = false := by
    intro e he
    rcases List.mem_cons.1 he with h | h
    · rw [h]; rfl
    · exact hrest e h
  obtain ⟨hu, hd⟩ := Smooth.run_no_message _ { w with bri := target } hg hev
  exact ⟨fun h => hu (le_of_lt h), fun h => hd (le_of_lt h)⟩

/-- The theorem of C8 on a ramp from 0 to 3 with `maxbri = 255`, two ticks
after the message. -/
theorem C8_ramp_monotone_witness :
    List.Chain (· ≤ ·) (0 : Int)
      (Smooth.run ⟨255, 0, 0, 0, -1, 10000, true⟩
        [(Smooth.Wake.message 3, true), (Smooth.Wake.timeout, true),
         (Smooth.Wake.timeout, true)]).2 ∧
    ∀ v ∈ (Smooth.run ⟨255, 0, 0, 0, -1, 10000, true⟩
        [(Smooth.Wake.message 3, true), (Smooth.Wake.timeout, true),
         (Smooth.Wake.timeout, true)]).2, v ≤ 3 :=
  (C8_ramp_monotone ⟨255, 0, 0, 0, -1, 10000, true⟩ 3 true
    [(Smooth.Wake.timeout, true), (Smooth.Wake.timeout, true)]
    rfl (by decide) (by decide) (by decide) (by decide) (by decide) (by decide)
    (by decide)).1 (by decide)

/-- The worker after `k` messages carrying the same target, each followed by a
successful `advance`, then left alone with enough fuel: it is idle at the
target, the last value written is the target, and all values written lie
between the starting device value and the target. -/
theorem Smooth.settle_after (w1 : Smooth.Worker) (start : Int) (pre : List Int) (fuel : Nat)
    (hg : Smooth.Ranged w1) (hrun : w1.running = true) (hs : Smooth.Settled w1)
    (hfuel : (w1.bri - w1.realbri).natAbs + 1 ≤ fuel)
    (hlast : ∀ l : List Int, (pre ++ l).getLastD start = l.getLastD w1.realbri)
    (hpre : ∀ v ∈ pre, Between start v w1.bri)
    (hbet : Between start w1.realbri w1.bri) :
    Smooth.Idle (Smooth.tick_until_idle fuel w1).1 ∧
    (Smooth.tick_until_idle fuel w1).1.realbri = w1.bri ∧
    device_after start (pre ++ (Smooth.tick_until_idle fuel w1).2) = w1.bri ∧
    ∀ v ∈ pre ++ (Smooth.tick_until_idle fuel w1).2, Between start v w1.bri := by
  obtain ⟨i1, i2, i3, i4, -, i6, i7⟩ := Smooth.tick_until_idle_spec fuel w1 hg hrun hs hfuel
  refine ⟨⟨by rw [i1, i2], i4, i3⟩, i1, ?_, ?_⟩
  · unfold device_after
    rw [hlast, i6]
  · intro v hv
    rcases List.mem_append.1 hv with h | h
    · exact hpre v h
    · exact between_trans hbet (i7 v h)


theorem Smooth.with_bri_self (x : Smooth.Worker) (c : Int) (h : x.bri = c) :
    ({ x with bri := c } : Smooth.Worker) = x := by
  subst h
  rfl

theorem Smooth.child_iter_message_same (x : Smooth.Worker) (t c : Int) (wok : Bool)
    (hrun : x.running = true) (hmax : 0 ≤ x.maxbri) (hc : clamp t 0 x.maxbri = c)
    (hb : x.bri = c) :
    Smooth.child_iter x (Smooth.Wake.message t) wok = Smooth.advance x wok := by
  rw [Smooth.child_iter_message x t wok hrun hmax, hc, Smooth.with_bri_self x c hb]

/-- C9: a running worker with `0 < maxbri` and a non-negative device value
receives the target `t` once, or twice in immediate succession, and is then
left alone (every device write succeeds, enough fuel for the ticks). Both runs
end in the Idle state with the device at `clamp t 0 maxbri`, and every value
written in either run lies between the starting device value and that final
value, so none is beyond it in the direction of travel. -/
theorem C9_same_target_twice (w : Smooth.Worker) (t : Int) (fuel : Nat)
    (hrun : w.running = true) (hmax : 0 < w.maxbri) (hmaxI : w.maxbri ≤ INT_MAX)
    (hr0 : 0 ≤ w.realbri) (hr1 : w.realbri ≤ INT_MAX)
    (hfuel : (clamp t 0 w.maxbri - w.realbri).natAbs + 1 ≤ fuel) :
    (Smooth.Idle (Smooth.ramp_once w t fuel).1 ∧
      (Smooth.ramp_once w t fuel).1.realbri = clamp t 0 w.maxbri ∧
      device_after w.realbri (Smooth.ramp_once w t fuel).2 = clamp t 0 w.maxbri ∧
      ∀ v ∈ (Smooth.ramp_once w t fuel).2, Between w.realbri v (clamp t 0 w.maxbri)) ∧
    (Smooth.Idle (Smooth.ramp_twice w t fuel).1 ∧
      (Smooth.ramp_twice w t fuel).1.realbri = clamp t 0 w.maxbri ∧
      device_after w.realbri (Smooth.ramp_twice w t fuel).2 = clamp t 0 w.maxbri ∧
      ∀ v ∈ (Smooth.ramp_twice w t fuel).2, Between w.realbri v (clamp t 0 w.maxbri)) := by
  have hc0 : 0 ≤ clamp t 0 w.maxbri ∧ clamp t 0 w.maxbri ≤ w.maxbri := by
    unfold clamp; split_ifs <;> omega
  generalize hcdef : clamp t 0 w.maxbri = c at hc0 hfuel ⊢
  have hg0 : Smooth.Ranged { w with bri := c } := by
    unfold Smooth.Ranged
    simp only
    omega
  obtain ⟨a1, a2, a3, a4, a5, a6, a7, a8, a9⟩ := Smooth.advance_step { w with bri := c } hg0
  simp only at a2 a4 a5 a6 a7 a8
  have hm1 := Smooth.child_iter_message w t true hrun (le_of_lt hmax)
  rw [hcdef] at hm1
  have hm2 : Smooth.child_iter (Smooth.advance { w with bri := c } true).1
      (Smooth.Wake.message t) true
      = Smooth.advance (Smooth.advance { w with bri := c } true).1 true := by
    exact Smooth.child_iter_message_same _ t c true (by rw [a2, hrun])
      (by rw [a5]; exact le_of_lt hmax) (by rw [a5]; exact hcdef) a4
  obtain ⟨b1, b2, b3, b4, b5, b6, b7, b8, b9⟩ :=
    Smooth.advance_step (Smooth.advance { w with bri := c } true).1 a1
  rw [a4] at b4 b6 b7
  have hpre1 : ∀ v ∈ (Smooth.advance { w with bri := c } true).2.toList,
      Between w.realbri v c := by
    intro v hv
    rw [a9 v (by simpa using hv)]
    exact a6
  constructor
  · have hs := Smooth.settle_after (Smooth.advance { w with bri := c } true).1 w.realbri
      (Smooth.advance { w with bri := c } true).2.toList fuel a1 (by rw [a2, hrun]) a3
      (by rw [a4]; omega) a8 (by rw [a4]; exact hpre1) (by rw [a4]; exact a6)
    rw [a4] at hs
    simpa only [Smooth.ramp_once, Smooth.run, hm1, List.append_nil] using hs
  · have hpre2 : ∀ v ∈ (Smooth.advance { w with bri := c } true).2.toList ++
        (Smooth.advance (Smooth.advance { w with bri := c } true).1 true).2.toList,
        Between w.realbri v c := by
      intro v hv
      rcases List.mem_append.1 hv with h | h
      · exact hpre1 v h
      · rw [b9 v (by simpa using h)]
        exact between_trans a6 b6
    have hs := Smooth.settle_after
      (Smooth.advance (Smooth.advance { w with bri := c } true).1 true).1 w.realbri
      ((Smooth.advance { w with bri := c } true).2.toList ++
        (Smooth.advance (Smooth.advance { w with bri := c } true).1 true).2.toList)
      fuel b1 (by rw [b2, a2, hrun]) b3 (by rw [b4]; omega)
      (by intro l; rw [List.append_assoc, a8, b8])
      (by rw [b4]; exact hpre2) (by rw [b4]; exact between_trans a6 b6)
    rw [b4] at hs
    simpa only [Smooth.ramp_twice, Smooth.run, hm1, hm2, List.append_nil] using hs

/-- The theorem of C9 on a worker at 0 with `maxbri = 255` that receives the
target 2. -/
theorem C9_same_target_twice_witness :
    device_after 0 (Smooth.ramp_once ⟨255, 0, 0, 0, -1, 10000, true⟩ 2 3).2 = clamp 2 0 255 ∧
    device_after 0 (Smooth.ramp_twice ⟨255, 0, 0, 0, -1, 10000, true⟩ 2 3).2 = clamp 2 0 255 :=
  ⟨(C9_same_target_twice ⟨255, 0, 0, 0, -1, 10000, true⟩ 2 3 rfl (by decide) (by decide)
      (by decide) (by decide) (by decide)).1.2.2.1,
   (C9_same_target_twice ⟨255, 0, 0, 0, -1, 10000, true⟩ 2 3 rfl (by decide) (by decide)
      (by decide) (by decide) (by decide)).2.2.2.1⟩


/-- The state after `fs_write`: `max_brightness` is kept, and the target is
either kept or the result of the two guarded assignments on some scanned
value. -/
theorem Smooth.fs_write_state (s : Smooth.State) (path payload : List Char) (off : Int)
    (send_ok : Bool) (sys : Sys) :
    (Smooth.fs_write s path payload off send_ok sys).2.max_brightness = s.max_brightness ∧
    ((Smooth.fs_write s path payload off send_ok sys).2.target_brightness
        = s.target_brightness ∨
     ∃ b0 : Int, (Smooth.fs_write s path payload off send_ok sys).2.target_brightness
        = (if (if b0 < 0 then 0 else b0) > s.max_brightness then s.max_brightness
           else (if b0 < 0 then 0 else b0))) := by
  unfold Smooth.fs_write
  by_cases hp : pathfix path = "brightness".toList
  · simp only [hp, if_true]
    cases sscanf_d (cstr payload) with
    | none => exact ⟨rfl, Or.inl rfl⟩
    | some b0 => exact ⟨rfl, Or.inr ⟨b0, rfl⟩⟩
  · simp only [hp, if_false]
    split_ifs <;> exact ⟨rfl, Or.inl rfl⟩

/-- Serving one request keeps `max_brightness`, keeps a non-negative target
non-negative, and keeps the target under a non-negative `max_brightness`. -/
theorem Smooth.serve_keeps (s : Smooth.State) (op : Smooth.FsOp)
    (h0 : 0 ≤ s.target_brightness) (hm : 0 ≤ s.max_brightness) :
    (Smooth.serve s op).max_brightness = s.max_brightness ∧
    0 ≤ (Smooth.serve s op).target_brightness ∧
    (s.target_brightness ≤ s.max_brightness →
      (Smooth.serve s op).target_brightness ≤ s.max_brightness) := by
  cases op with
  | write path payload off send_ok sys =>
    obtain ⟨k1, k2⟩ := Smooth.fs_write_state s path payload off send_ok sys
    unfold Smooth.serve
    refine ⟨k1, ?_, fun h => ?_⟩
    · rcases k2 with k | ⟨b0, k⟩
      · rw [k]; exact h0
      · rw [k]; split_ifs <;> omega
    · rcases k2 with k | ⟨b0, k⟩
      · rw [k]; exact h
      · rw [k]; split_ifs <;> omega
  | read _ _ _ _ _ _ _ => exact ⟨rfl, h0, fun h => h⟩
  | openFile _ _ _ => exact ⟨rfl, h0, fun h => h⟩
  | truncate _ _ => exact ⟨rfl, h0, fun h => h⟩
  | release _ _ => exact ⟨rfl, h0, fun h => h⟩

theorem Smooth.serve_all_keeps (ops : List Smooth.FsOp) :
    ∀ s : Smooth.State, 0 ≤ s.target_brightness → 0 ≤ s.max_brightness →
      (ops.foldl Smooth.serve s).max_brightness = s.max_brightness ∧
      0 ≤ (ops.foldl Smooth.serve s).target_brightness ∧
      (s.target_brightness ≤ s.max_brightness →
        (ops.foldl Smooth.serve s).target_brightness ≤ s.max_brightness) := by
  induction ops with
  | nil => intro s h0 _; exact ⟨rfl, h0, fun h => h⟩
  | cons op rest ih =>
    intro s h0 hm
    obtain ⟨k1, k2, k3⟩ := Smooth.serve_keeps s op h0 hm
    obtain ⟨i1, i2, i3⟩ := ih (Smooth.serve s op) k2 (by rw [k1]; exact hm)
    rw [k1] at i1 i3
    exact ⟨i1, i2, fun h => i3 (k3 h)⟩

theorem readnum_ge (file : Option (List Char)) (junk : Int) : -1 ≤ readnum file junk := by
  unfold readnum
  cases readfile file 19 with
  | none => simp
  | some buf =>
    simp only
    split_ifs <;> omega

/-- C10 as stated fails: a real directory whose `brightness` reads 100 and
whose `max_brightness` reads 50 passes the validation of `main`, and the mount
context it starts with has `target_brightness = 100 > 50 = max_brightness`. -/
theorem C10_startup_counterexample :
    ∃ s, Smooth.main_init (some "100\n".toList) (some "50\n".toList) 0 0 true = some s ∧
      ¬ (0 ≤ s.target_brightness ∧ s.target_brightness ≤ s.max_brightness) :=
  ⟨⟨100, 50, [], false⟩, by decide, by decide⟩

/-- C10 amended: from every startup that the validation of `main` accepts,
after any sequence of served requests, `max_brightness` is the startup value
and is not negative, and `target_brightness` is not negative; if moreover the
`brightness` read at startup does not exceed the `max_brightness` read at
startup, then `target_brightness ≤ max_brightness` in every such state. -/
theorem C10_mount_invariant (brightness max_brightness : Option (List Char))
    (junk_b junk_m : Int) (child_ok : Bool) (s0 : Smooth.State) (ops : List Smooth.FsOp)
    (hinit : Smooth.main_init brightness max_brightness junk_b junk_m child_ok = some s0) :
    (ops.foldl Smooth.serve s0).max_brightness = s0.max_brightness ∧
    0 ≤ (ops.foldl Smooth.serve s0).max_brightness ∧
    0 ≤ (ops.foldl Smooth.serve s0).target_brightness ∧
    (s0.target_brightness ≤ s0.max_brightness →
      (ops.foldl Smooth.serve s0).target_brightness
        ≤ (ops.foldl Smooth.serve s0).max_brightness) := by
  unfold Smooth.main_init at hinit
  simp only at hinit
  split_ifs at hinit with hneg hchild
  simp only [Option.some.injEq] at hinit
  have h0 : 0 ≤ s0.target_brightness := by rw [← hinit]; simp only; omega
  have hm : 0 ≤ s0.max_brightness := by rw [← hinit]; simp only; omega
  obtain ⟨i1, i2, i3⟩ := Smooth.serve_all_keeps ops s0 h0 hm
  refine ⟨i1, by rw [i1]; exact hm, i2, fun h => by rw [i1]; exact i3 h⟩

/-- The theorem of C10 amended on the startup `brightness = 100`,
`max_brightness = 255` followed by the writes of `300` and of `-4`. -/
theorem C10_mount_invariant_witness :
    ([Smooth.FsOp.write "/brightness".toList "300\n".toList 0 true ⟨0, 0, []⟩,
      Smooth.FsOp.write "/brightness".toList "-4\n".toList 0 true ⟨0, 0, []⟩].foldl
        Smooth.serve ⟨100, 255, [], false⟩).target_brightness
      ≤ ([Smooth.FsOp.write "/brightness".toList "300\n".toList 0 true ⟨0, 0, []⟩,
      Smooth.FsOp.write "/brightness".toList "-4\n".toList 0 true ⟨0, 0, []⟩].foldl
        Smooth.serve ⟨100, 255, [], false⟩).max_brightness :=
  (C10_mount_invariant (some "100\n".toList) (some "255\n".toList) 0 0 true
    ⟨100, 255, [], false⟩
    [Smooth.FsOp.write "/brightness".toList "300\n".toList 0 true ⟨0, 0, []⟩,
     Smooth.FsOp.write "/brightness".toList "-4\n".toList 0 true ⟨0, 0, []⟩]
    (by decide)).2.2.2 (by decide)


/-! ## Startup validation and path normalization -/

/-- A file that cannot be opened or read makes `readnum` return -1. -/
theorem readnum_none (junk : Int) : readnum none junk = -1 := rfl

/-- A file whose first 19 bytes scan as an integer makes `readnum` return that
integer, or 0 when it is negative. -/
theorem readnum_scanned (content : List Char) (junk v : Int)
    (h : sscanf_d (cstr (content.take 19)) = some v) :
    readnum (some content) junk = if v < 0 then 0 else v := by
  unfold readnum readfile
  simp only [Option.map_some', h, Option.getD_some]

/-- C11 as stated fails: a real directory whose `brightness` file holds `-5`
is accepted by the validation of `main` in both programs; the mount context
starts with `target_brightness = 0`. -/
theorem C11_negative_accepted :
    Smooth.main_init (some "-5\n".toList) (some "255\n".toList) 0 0 true
      = some ⟨0, 255, [], false⟩ ∧
    Alias.main_init (some "-5\n".toList) (some "255\n".toList) 0 0 true
        ⟨some "100\n".toList, true, true, []⟩
      = some ⟨0, 255, ⟨some "100\n".toList, true, true, []⟩, false⟩ := by
  decide

/-- C11 amended: in both programs `main` exits with status 1 before mounting
whenever the `brightness` or the `max_brightness` file of the real directory
cannot be opened or read; and when both files can be read and scan as decimal
integers, `main` goes on (given that the backend setup succeeds) with each
value taken as read, a negative one as 0. -/
theorem C11_startup_validation (brightness max_brightness : Option (List Char))
    (junk_b junk_m : Int) (ok : Bool) (t : Alias.Target) :
    ((brightness = none ∨ max_brightness = none) →
      Smooth.main_init brightness max_brightness junk_b junk_m ok = none ∧
      Alias.main_init brightness max_brightness junk_b junk_m ok t = none) ∧
    (∀ cb cm vb vm, brightness = some cb → max_brightness = some cm →
      sscanf_d (cstr (cb.take 19)) = some vb → sscanf_d (cstr (cm.take 19)) = some vm →
      Smooth.main_init brightness max_brightness junk_b junk_m true
        = some ⟨if vb < 0 then 0 else vb, if vm < 0 then 0 else vm, [], false⟩ ∧
      Alias.main_init brightness max_brightness junk_b junk_m true t
        = some ⟨if vb < 0 then 0 else vb, if vm < 0 then 0 else vm, t, false⟩) := by
  constructor
  · intro h
    have hb := readnum_ge brightness junk_b
    have hm := readnum_ge max_brightness junk_m
    have hneg : readnum brightness junk_b < 0 ∨ readnum max_brightness junk_m < 0 := by
      rcases h with h | h
      · left; rw [h, readnum_none]; decide
      · right; rw [h, readnum_none]; decide
    unfold Smooth.main_init Alias.main_init
    simp only [if_pos hneg, and_self]
  · intro cb cm vb vm hb hm hsb hsm
    have rb := readnum_scanned cb junk_b vb hsb
    have rm := readnum_scanned cm junk_m vm hsm
    have hnn : ¬ ((if vb < 0 then 0 else vb) < 0 ∨ (if vm < 0 then 0 else vm) < 0) := by
      split_ifs <;> omega
    unfold Smooth.main_init Alias.main_init
    simp only [hb, hm, rb, rm, if_neg hnn, Bool.true_eq_false, if_false, and_self]

/-- The theorem of C11 amended on an unreadable `brightness` file and on the
files `100` and `255`. -/
theorem C11_startup_validation_witness :
    Smooth.main_init none (some "255\n".toList) 0 0 true = none ∧
    Smooth.main_init (some "100\n".toList) (some "255\n".toList) 0 0 true
      = some ⟨if (100 : Int) < 0 then 0 else 100, if (255 : Int) < 0 then 0 else 255, [],
          false⟩ :=
  ⟨((C11_startup_validation none (some "255\n".toList) 0 0 true
      ⟨none, true, true, []⟩).1 (Or.inl rfl)).1,
   ((C11_startup_validation (some "100\n".toList) (some "255\n".toList) 0 0 true
      ⟨none, true, true, []⟩).2 "100\n".toList "255\n".toList 100 255 rfl rfl (by decide)
      (by decide)).1⟩

/-- C12 as stated fails: the path `//etc` begins with a slash and `pathfix`
returns `/etc`, which still begins with a slash. -/
theorem C12_double_slash_counterexample :
    pathfix "//etc".toList = "/etc".toList ∧
    (pathfix "//etc".toList).head? = some '/' := by
  decide

/-- C12 amended: for every path that begins with a slash not followed by a
second slash, `pathfix` returns a non-empty string that does not begin with a
slash: `.` for the paths `/` and `/..`, and otherwise the path without its
leading slash. -/
theorem C12_pathfix_relative (rest : List Char) (h : rest.head? ≠ some '/') :
    pathfix ('/' :: rest) ≠ [] ∧ (pathfix ('/' :: rest)).head? ≠ some '/' ∧
    pathfix ('/' :: rest)
      = (if rest = [] ∨ rest = "..".toList then ".".toList else rest) := by
  have hp : pathfix ('/' :: rest)
      = (if rest = [] ∨ rest = "..".toList then ".".toList else rest) := by
    unfold pathfix
    simp only [if_true]
  rw [hp]
  split_ifs with hc
  · refine ⟨by decide, by decide, rfl⟩
  · refine ⟨fun he => hc (Or.inl he), h, rfl⟩

/-- The theorem of C12 amended on the path `/brightness`. -/
theorem C12_pathfix_relative_witness :
    pathfix "/brightness".toList ≠ [] ∧
    (pathfix "/brightness".toList).head? ≠ some '/' :=
  ⟨(C12_pathfix_relative "brightness".toList (by decide)).1,
   (C12_pathfix_relative "brightness".toList (by decide)).2.1⟩

/-- C16, at the input where the code breaks it: the validation of the alias
`main` accepts a real directory whose `max_brightness` reads 0; with a second
device whose maximum reads 255, the scaling `tmax * bri / maxbri` then has the
divisor 0, so `request_bri_update` and with it the write of `1` to
`brightness` have no result. -/
theorem C16_zero_divisor_reached :
    Alias.main_init (some "0\n".toList) (some "0\n".toList) 0 0 true
        ⟨some "255\n".toList, true, true, []⟩
      = some ⟨0, 0, ⟨some "255\n".toList, true, true, []⟩, false⟩ ∧
    Alias.scale 255 0 0 = none ∧
    Alias.request_bri_update ⟨some "255\n".toList, true, true, []⟩ 0 0 0 = none ∧
    Alias.fs_write ⟨0, 0, ⟨some "255\n".toList, true, true, []⟩, false⟩ 0
      "/brightness".toList "1\n".toList 0 ⟨0, 0, []⟩ = none := by
  decide


/-! ## The ramp invariant and the length of a ramp -/

/-- One `advance`, whether or not its device write succeeds: the step it
leaves in the worker satisfies the ramp invariant against the new device
value. -/
theorem Smooth.advance_rampInv (w : Smooth.Worker) (wok : Bool) (hg : Smooth.Ranged w) :
    Smooth.RampInv (Smooth.advance w wok).1 := by
  obtain ⟨hb0, hb1, hr0, hr1⟩ := hg
  unfold INT_MAX at hb1 hr1
  have hd : InInt (w.bri - w.realbri) := by
    unfold InInt INT_MIN INT_MAX; omega
  obtain ⟨heq, hup, hdown⟩ := Smooth.makestep_spec w.maxbri w.bri w.realbri hd
  rcases lt_trichotomy w.realbri w.bri with hlt | he | hgt
  · obtain ⟨-, hs1, hs2⟩ := hup hlt
    have hne : w.realbri ≠ w.bri := by omega
    have h32 : toInt32 (w.realbri + (Smooth.makestep w.maxbri w.bri w.realbri).1)
        = w.realbri + (Smooth.makestep w.maxbri w.bri w.realbri).1 := by
      apply toInt32_of_InInt; unfold InInt INT_MIN INT_MAX; omega
    unfold Smooth.RampInv Smooth.advance Smooth.update_brightness
    cases wok <;>
      simp only [ne_eq, hne, not_false_eq_true, if_true, h32, not_true_eq_false, if_false,
        Bool.false_eq_true, one_ne_zero, zero_ne_one] <;> omega
  · have hm := heq he.symm
    have hm2 := hm
    rw [he] at hm2
    unfold Smooth.RampInv Smooth.advance
    simp only [hm, hm2, ne_eq, he, not_true_eq_false, if_false]
    omega
  · obtain ⟨-, hs1, hs2⟩ := hdown hgt
    have hne : w.realbri ≠ w.bri := by omega
    have h32 : toInt32 (w.realbri + (Smooth.makestep w.maxbri w.bri w.realbri).1)
        = w.realbri + (Smooth.makestep w.maxbri w.bri w.realbri).1 := by
      apply toInt32_of_InInt; unfold InInt INT_MIN INT_MAX; omega
    unfold Smooth.RampInv Smooth.advance Smooth.update_brightness
    cases wok <;>
      simp only [ne_eq, hne, not_false_eq_true, if_true, h32, not_true_eq_false, if_false,
        Bool.false_eq_true, one_ne_zero, zero_ne_one] <;> omega

/-- Every loop iteration keeps the ramp invariant. -/
theorem Smooth.child_iter_rampInv (w : Smooth.Worker) (ev : Smooth.Wake) (wok : Bool)
    (hg : Smooth.Ranged w) (hmax : 0 < w.maxbri) (hmaxI : w.maxbri ≤ INT_MAX)
    (hinv : Smooth.RampInv w) : Smooth.RampInv (Smooth.child_iter w ev wok).1 := by
  unfold Smooth.child_iter
  by_cases hrun : w.running = false
  · rw [if_pos hrun]
    exact hinv
  · rw [if_neg hrun]
    cases ev with
    | timeout => exact Smooth.advance_rampInv w wok hg
    | nothing => exact Smooth.advance_rampInv w wok hg
    | closed => exact hinv
    | pollfail eagain =>
      simp only
      split_ifs
      · exact hinv
      · exact hinv
    | message n =>
      simp only
      rw [clamp_code_eq n _ (le_of_lt hmax)]
      have hc : 0 ≤ clamp n 0 w.maxbri ∧ clamp n 0 w.maxbri ≤ w.maxbri := by
        unfold clamp; split_ifs <;> omega
      have hg2 : Smooth.Ranged { w with bri := clamp n 0 w.maxbri } := by
        unfold Smooth.Ranged at hg ⊢
        simp only
        omega
      exact Smooth.advance_rampInv _ wok hg2

/-- The ramp invariant holds after any sequence of loop iterations that starts
in a state where it holds. -/
theorem Smooth.run_rampInv (evs : List (Smooth.Wake × Bool)) :
    ∀ w : Smooth.Worker, Smooth.Ranged w → 0 < w.maxbri → w.maxbri ≤ INT_MAX →
      Smooth.RampInv w → Smooth.RampInv (Smooth.run w evs).1 := by
  induction evs with
  | nil => intro w _ _ _ h; exact h
  | cons e rest ih =>
    intro w hg hmax hmaxI hinv
    obtain ⟨ev, wok⟩ := e
    obtain ⟨k1, k2⟩ := Smooth.child_iter_keeps w ev wok hg hmax hmaxI
    have k3 := Smooth.child_iter_rampInv w ev wok hg hmax hmaxI hinv
    simp only [Smooth.run]
    exact ih (Smooth.child_iter w ev wok).1 k1 (by rw [k2]; exact hmax)
      (by rw [k2]; exact hmaxI) k3

/-- C13: for `maxbri > 0` and target and device value in `[0, maxbri]`, when
they differ `makestep` gives the interval `MIN_INTERVAL` and a step of
magnitude at least 1 that points from the device value to the target. The
ramp invariant holds in the worker after a loop iteration woken by a tick or
by a target message, whatever the message and whether or not the device write
succeeds, and after any sequence of iterations from a state where it holds. -/
theorem C13_ramp_invariant (w : Smooth.Worker) (hmax : 0 < w.maxbri)
    (hmaxI : w.maxbri ≤ INT_MAX) (hb0 : 0 ≤ w.bri) (hb1 : w.bri ≤ w.maxbri)
    (hr0 : 0 ≤ w.realbri) (hr1 : w.realbri ≤ w.maxbri) (hrun : w.running = true) :
    (w.bri ≠ w.realbri →
      (Smooth.makestep w.maxbri w.bri w.realbri).2 = MIN_INTERVAL ∧
      (w.realbri < w.bri → 1 ≤ (Smooth.makestep w.maxbri w.bri w.realbri).1) ∧
      (w.bri < w.realbri → (Smooth.makestep w.maxbri w.bri w.realbri).1 ≤ -1)) ∧
    (∀ wok, Smooth.RampInv (Smooth.child_iter w Smooth.Wake.timeout wok).1) ∧
    (∀ newbri wok, Smooth.RampInv (Smooth.child_iter w (Smooth.Wake.message newbri) wok).1) ∧
    (∀ evs, Smooth.RampInv w → Smooth.RampInv (Smooth.run w evs).1) := by
  have hg : Smooth.Ranged w := by
    unfold Smooth.Ranged; omega
  have hd : InInt (w.bri - w.realbri) := by
    unfold INT_MAX at hmaxI
    unfold InInt INT_MIN INT_MAX; omega
  obtain ⟨-, hup, hdown⟩ := Smooth.makestep_spec w.maxbri w.bri w.realbri hd
  refine ⟨?_, ?_, ?_, ?_⟩
  · intro hne
    rcases lt_or_gt_of_ne hne with h | h
    · exact ⟨(hdown h).1, fun h2 => by omega, fun _ => (hdown h).2.2⟩
    · exact ⟨(hup h).1, fun _ => (hup h).2.1, fun h2 => by omega⟩
  · intro wok
    have : Smooth.child_iter w Smooth.Wake.timeout wok = Smooth.advance w wok := by
      simp [Smooth.child_iter, hrun]
    rw [this]
    exact Smooth.advance_rampInv w wok hg
  · intro newbri wok
    rw [Smooth.child_iter_message w newbri wok hrun (le_of_lt hmax)]
    have hc : 0 ≤ clamp newbri 0 w.maxbri ∧ clamp newbri 0 w.maxbri ≤ w.maxbri := by
      unfold clamp; split_ifs <;> omega
    apply Smooth.advance_rampInv
    unfold Smooth.Ranged at hg ⊢
    simp only
    omega
  · intro evs hinv
    exact Smooth.run_rampInv evs w hg hmax hmaxI hinv

/-- The theorem of C13 on a worker at 0 with target 200 and `maxbri = 255`:
`makestep` gives the step 2 and the interval 10. -/
theorem C13_ramp_invariant_witness :
    (Smooth.makestep 255 200 0).2 = MIN_INTERVAL ∧
    ((0 : Int) < 200 → 1 ≤ (Smooth.makestep 255 200 0).1) :=
  ⟨((C13_ramp_invariant ⟨255, 200, 0, 0, -1, 10000, true⟩ (by decide) (by decide) (by decide)
      (by decide) (by decide) (by decide) rfl).1 (by decide)).1,
   ((C13_ramp_invariant ⟨255, 200, 0, 0, -1, 10000, true⟩ (by decide) (by decide) (by decide)
      (by decide) (by decide) (by decide) rfl).1 (by decide)).2.1⟩


theorem Smooth.ticks_zero (w : Smooth.Worker) : Smooth.ticks 0 w = w := rfl

theorem Smooth.ticks_succ (n : Nat) (w : Smooth.Worker) :
    Smooth.ticks (n + 1) w = Smooth.ticks n (Smooth.child_iter w Smooth.Wake.timeout true).1 := by
  simp only [Smooth.ticks, List.replicate, Smooth.run]

/-- After `n` ticks the target is the same; the device value is at the target
once `n` reaches the distance, and the worker is idle once `n` exceeds it. -/
theorem Smooth.ticks_spec (n : Nat) :
    ∀ w : Smooth.Worker, Smooth.Ranged w → w.running = true →
      (Smooth.ticks n w).bri = w.bri ∧
      ((w.bri - w.realbri).natAbs ≤ n → (Smooth.ticks n w).realbri = w.bri) ∧
      (((w.bri - w.realbri).natAbs + 1 ≤ n ∨ Smooth.Idle w) →
        Smooth.Idle (Smooth.ticks n w)) := by
  induction n with
  | zero =>
    intro w _ _
    rw [Smooth.ticks_zero]
    refine ⟨rfl, fun h => by omega, fun h => ?_⟩
    rcases h with h | h
    · omega
    · exact h
  | succ n ih =>
    intro w hg hrun
    have hci : Smooth.child_iter w Smooth.Wake.timeout true = Smooth.advance w true := by
      simp [Smooth.child_iter, hrun]
    obtain ⟨a1, a2, -, a4, -, acase⟩ := Smooth.advance_spec w hg
    obtain ⟨i1, i2, i3⟩ := ih (Smooth.advance w true).1 a1 (by rw [a2, hrun])
    rw [a4] at i1 i2 i3
    rw [Smooth.ticks_succ, hci]
    refine ⟨i1, fun h => ?_, fun h => ?_⟩
    · apply i2
      rcases acase with ⟨e1, -, e3, -, -⟩ | ⟨-, -, -, n4⟩ <;> omega
    · apply i3
      rcases acase with ⟨e1, -, e3, e4, e5⟩ | ⟨n1, -, -, n4⟩
      · right
        exact ⟨by rw [e3, a4]; exact e1, e5, e4⟩
      · left
        rcases h with h | h
        · omega
        · exact absurd h.1 n1

/-- C14 as stated fails: the worker that starts at 0 with `maxbri = 255` and
receives the target 2 is at the device value 1 after the iteration of the
message, at distance 1 from its target. One tick later it is at the target but
not idle: the step is still 1 and the wait still 10. It is idle after the
second tick. -/
theorem C14_idle_counterexample :
    Smooth.child_init (some "0\n".toList) (some "255\n".toList) 0 0
      = some ⟨255, 0, 0, 0, -1, 10000, true⟩ ∧
    Smooth.run ⟨255, 0, 0, 0, -1, 10000, true⟩ [(Smooth.Wake.message 2, true)]
      = (⟨255, 2, 1, 1, 10, 10000, true⟩, [1]) ∧
    Smooth.ticks 1 ⟨255, 2, 1, 1, 10, 10000, true⟩ = ⟨255, 2, 2, 1, 10, 10000, true⟩ ∧
    ¬ Smooth.Idle (Smooth.ticks 1 ⟨255, 2, 1, 1, 10, 10000, true⟩) ∧
    Smooth.ticks 2 ⟨255, 2, 1, 1, 10, 10000, true⟩ = ⟨255, 2, 2, 0, -1, 10000, true⟩ := by
  refine ⟨by decide, by decide, by decide, ?_, by decide⟩
  intro h
  have h2 : (Smooth.ticks 1 ⟨255, 2, 1, 1, 10, 10000, true⟩).step = 1 := by decide
  rw [h.2.1] at h2
  exact absurd h2 (by decide)

/-- C14 amended: for a running worker with `maxbri > 0` and target and device
value in `[0, maxbri]`, a tick taken while they differ strictly decreases
their distance, whether or not the device write succeeds; with no message the
device value is at the target after at most `|target - real|` ticks and the
worker is in the Idle state after at most `|target - real| + 1` ticks. -/
theorem C14_ramp_terminates (w : Smooth.Worker) (n : Nat) (_hmax : 0 < w.maxbri)
    (hmaxI : w.maxbri ≤ INT_MAX) (hb0 : 0 ≤ w.bri) (hb1 : w.bri ≤ w.maxbri)
    (hr0 : 0 ≤ w.realbri) (hr1 : w.realbri ≤ w.maxbri) (hrun : w.running = true) :
    (w.realbri ≠ w.bri → ∀ wok,
      (w.bri - (Smooth.child_iter w Smooth.Wake.timeout wok).1.realbri).natAbs
        < (w.bri - w.realbri).natAbs) ∧
    ((w.bri - w.realbri).natAbs ≤ n → (Smooth.ticks n w).realbri = w.bri) ∧
    ((w.bri - w.realbri).natAbs + 1 ≤ n → Smooth.Idle (Smooth.ticks n w)) := by
  have hg : Smooth.Ranged w := by
    unfold Smooth.Ranged; omega
  obtain ⟨t1, t2, t3⟩ := Smooth.ticks_spec n w hg hrun
  refine ⟨?_, t2, fun h => t3 (Or.inl h)⟩
  intro hne wok
  have hci : Smooth.child_iter w Smooth.Wake.timeout wok = Smooth.advance w wok := by
    simp [Smooth.child_iter, hrun]
  obtain ⟨-, -, -, -, -, acase⟩ := Smooth.advance_spec w hg
  obtain ⟨-, f2, -, -⟩ := Smooth.advance_fail w
  have key : (w.bri - (Smooth.advance w true).1.realbri).natAbs
      < (w.bri - w.realbri).natAbs := by
    rcases acase with ⟨e1, -, -, -, -⟩ | ⟨-, -, -, n4⟩
    · exact absurd e1 hne
    · omega
  rw [hci]
  cases wok with
  | true => exact key
  | false => rw [f2]; exact key

/-- The theorem of C14 amended on the worker at 1 with target 2: it is idle
after two ticks. -/
theorem C14_ramp_terminates_witness :
    Smooth.Idle (Smooth.ticks 2 ⟨255, 2, 1, 1, 10, 10000, true⟩) :=
  (C14_ramp_terminates ⟨255, 2, 1, 1, 10, 10000, true⟩ 2 (by decide) (by decide) (by decide)
    (by decide) (by decide) (by decide) rfl).2.2 (by decide)

/-- C15, at the input where the code breaks it: the worker that starts at 0
with `maxbri = 255` and receives the target 3 writes 1 in the iteration of the
message and 2 and 3 in the next two ticks; the third tick makes it idle. The
whole ramp takes three ticks of `MIN_INTERVAL`, 30 ms, far less than
`MIN_PERIOD`. -/
theorem C15_short_ramp :
    Smooth.child_init (some "0\n".toList) (some "255\n".toList) 0 0
      = some ⟨255, 0, 0, 0, -1, 10000, true⟩ ∧
    Smooth.run ⟨255, 0, 0, 0, -1, 10000, true⟩
        [(Smooth.Wake.message 3, true), (Smooth.Wake.timeout, true),
         (Smooth.Wake.timeout, true), (Smooth.Wake.timeout, true)]
      = (⟨255, 3, 3, 0, -1, 10000, true⟩, [1, 2, 3]) ∧
    3 * MIN_INTERVAL < MIN_PERIOD := by
  decide

end Backlight
